import Mathlib

/-!
Verification of the color-conversion and tree-rewrite core of the
`svg-to-grayscale` repository (`grayscale-svg.js`).

The development shallowly embeds the source:
* JavaScript strings are Lean `String`s, manipulated through their
  underlying character lists;
* JavaScript numbers are exact rationals (`ℚ`); decimal literals such as
  `0.299` are embedded as the rationals they denote;
* the SVG AST produced by the external `svgson` parser is the inductive
  `SvgNode` tree (tag name, attribute list, children), matching the node
  shape the spec's collaborator contract describes;
* the external color-parsing collaborator (the `tinycolor2` library,
  pinned at version 1.6.0 by the source's CDN import) is embedded for the
  color notations and operations the core exercises: hex3/hex6/hex8 and
  `rgb()`/`rgba()` parsing, RGB↔HSL conversion, `desaturate`/`greyscale`
  and hex formatting.  Notations the model does not cover (named colors,
  percentages, `hsl()` input strings) simply fail to parse; universally
  quantified statements range over the strings the embedded parser
  accepts.
-/

set_option maxRecDepth 100000

namespace GrayscaleSvg

attribute [local semireducible] Rat.add Rat.mul Rat.sub Rat.inv

/-! ## JavaScript string primitives -/

/-- Whitespace characters recognised by the model of `String.prototype.trim`. -/
def jsSpace (c : Char) : Bool :=
  c = ' ' ∨ c = '\t' ∨ c = '\n' ∨ c = '\r'

/-- Trim on character lists: drop whitespace from both ends. -/
def trimList (l : List Char) : List Char :=
  ((l.dropWhile jsSpace).reverse.dropWhile jsSpace).reverse

/-- Model of `String.prototype.trim`. -/
def jsTrim (s : String) : String := ⟨trimList s.data⟩

/-- Split a character list on a separator character.  Mirrors the behaviour
of JavaScript `String.prototype.split` with a one-character separator: the
result is never empty and keeps empty segments. -/
def splitChar (sep : Char) : List Char → List (List Char)
  | [] => [[]]
  | c :: rest =>
    let r := splitChar sep rest
    if c = sep then [] :: r
    else
      match r with
      | h :: t => (c :: h) :: t
      | [] => [[c]]

/-- Model of `s.split(sep)` for a one-character separator. -/
def jsSplit (sep : Char) (s : String) : List String :=
  (splitChar sep s.data).map fun l => ⟨l⟩

/-- Model of `String.prototype.toLowerCase` on the character set the core
handles (ASCII). -/
def jsToLower (s : String) : String := ⟨s.data.map Char.toLower⟩

/-- Model of `String.prototype.startsWith`. -/
def jsStartsWith (pre s : String) : Bool := pre.data.isPrefixOf s.data

/-! ## Hexadecimal digits and JavaScript number formatting -/

/-- Lowercase hexadecimal digit character for a value below 16, as produced
by `Number.prototype.toString(16)`. -/
def hexChar (n : ℕ) : Char :=
  if n < 10 then Char.ofNat (48 + n) else Char.ofNat (87 + n)

/-- Numeric value of a hexadecimal digit character (comparisons on the
code point). -/
def hexVal (c : Char) : Option ℕ :=
  let n := c.toNat
  if 48 ≤ n ∧ n ≤ 57 then some (n - 48)
  else if 97 ≤ n ∧ n ≤ 102 then some (n - 87)
  else if 65 ≤ n ∧ n ≤ 70 then some (n - 55)
  else none

/-- Value of a two-digit hexadecimal pair. -/
def parseHex2 (a b : Char) : Option ℕ :=
  match hexVal a, hexVal b with
  | some x, some y => some (16 * x + y)
  | _, _ => none

/-- Fuelled base-16 digit expansion (most significant digit first). -/
def natHexAux : ℕ → ℕ → List Char
  | 0, _ => []
  | fuel + 1, n => if n = 0 then [] else natHexAux fuel (n / 16) ++ [hexChar (n % 16)]

/-- Model of `n.toString(16)` for a natural number. -/
def jsHexStr (n : ℕ) : List Char :=
  if n = 0 then ['0'] else natHexAux n n

/-- Model of `String.prototype.padStart(2, '0')`. -/
def pad2 (l : List Char) : List Char :=
  List.replicate (2 - l.length) '0' ++ l

/-- Two-character lowercase hexadecimal rendering of a channel value, as in
`Math.round(v).toString(16).padStart(2, '0')`. -/
def toHex2 (n : ℕ) : List Char := pad2 (jsHexStr n)

/-- Computable floor of a rational (flooring integer division of numerator
by denominator). -/
def qfloor (q : ℚ) : ℤ := q.num.fdiv q.den

/-- Model of JavaScript `Math.round` on the rationals that stand in for
JavaScript numbers: round half toward positive infinity. -/
def jsRound (q : ℚ) : ℤ := qfloor (q + 1 / 2)

/-! ## The tinycolor color value and parser model -/

/-- Parsed color: RGB channels in `[0, 255]` and an alpha channel in
`[0, 1]`, the shape the spec's Color Parser collaborator contract gives
(`parse(colorString) -> {r,g,b,a} or invalid`). -/
structure Rgba where
  r : ℚ
  g : ℚ
  b : ℚ
  a : ℚ
  deriving DecidableEq, Repr

/-- Digit-string value; `none` unless the list is a nonempty run of decimal
digits. -/
def parseDigits : List Char → Option ℕ
  | [] => none
  | l =>
    if l.all Char.isDigit then
      some (l.foldl (fun acc c => 10 * acc + (c.toNat - 48)) 0)
    else none

/-- Model of parsing a (possibly signed, possibly decimal-pointed) numeric
component, the numeric forms tinycolor's `CSS_UNIT` matcher accepts without
a percent sign. -/
def parseDec (l : List Char) : Option ℚ :=
  let signed : Bool := l.head? = some '-'
  let body := if signed ∨ l.head? = some '+' then l.tail else l
  let mag : Option ℚ :=
    match splitChar '.' body with
    | [a] => (parseDigits a).map fun n => (n : ℚ)
    | [a, b] =>
      match parseDigits b with
      | some frac =>
        let ip : ℕ := if a = [] then 0 else (parseDigits a).getD 0
        if a = [] ∨ (parseDigits a).isSome then
          some ((ip : ℚ) + (frac : ℚ) / ((10 : ℚ) ^ b.length))
        else none
      | none => none
    | _ => none
  match mag with
  | some m => some (if signed then -m else m)
  | none => none

/-- Channel clamp performed by tinycolor's `bound01(·, 255) * 255` round
trip on plain numeric `rgb()` components. -/
def clamp255 (q : ℚ) : ℚ := min 255 (max 0 q)

/-- Model of tinycolor's `boundAlpha`: values outside `[0, 1]` (and
unparseable ones) become `1`. -/
def boundAlpha (q : ℚ) : ℚ := if q < 0 ∨ 1 < q then 1 else q

/-- Helper: interpret a comma-separated component list for `rgb()` /
`rgba()` after the surrounding syntax has been removed. -/
def parseRgbComponents (inner : List Char) : List (Option ℚ) :=
  (splitChar ',' inner).map fun comp => parseDec (trimList comp)

/-- Modelled from the spec: the external Color Parser collaborator
(`parse(colorString) -> {r,g,b,a} or invalid`), embodied in the source by
the `tinycolor2@1.6.0` library pinned in `grayscale-svg.js`.  The model
covers the input lowercasing/trimming, the `rgb()`/`rgba()` forms with
plain numeric components, and the hex3/hex6/hex8 forms with optional `#`;
other tinycolor notations are outside the model and parse to `none`. -/
def tinycolorParse (s : String) : Option Rgba :=
  let t := jsToLower (jsTrim s)
  let l := t.data
  if jsStartsWith "rgba(" t ∧ l.getLast? = some ')' then
    match parseRgbComponents ((l.drop 5).dropLast) with
    | [some r, some g, some b, some a] =>
      some ⟨clamp255 r, clamp255 g, clamp255 b, boundAlpha a⟩
    | _ => none
  else if jsStartsWith "rgb(" t ∧ l.getLast? = some ')' then
    match parseRgbComponents ((l.drop 4).dropLast) with
    | [some r, some g, some b] =>
      some ⟨clamp255 r, clamp255 g, clamp255 b, 1⟩
    | _ => none
  else
    let h := if l.head? = some '#' then l.tail else l
    match h with
    | [a, b, c] =>
      match hexVal a, hexVal b, hexVal c with
      | some x, some y, some z => some ⟨(17 * x : ℕ), (17 * y : ℕ), (17 * z : ℕ), 1⟩
      | _, _, _ => none
    | [a, b, c, d, e, f] =>
      match parseHex2 a b, parseHex2 c d, parseHex2 e f with
      | some x, some y, some z => some ⟨(x : ℕ), (y : ℕ), (z : ℕ), 1⟩
      | _, _, _ => none
    | [a, b, c, d, e, f, g, h2] =>
      match parseHex2 a b, parseHex2 c d, parseHex2 e f, parseHex2 g h2 with
      | some x, some y, some z, some w => some ⟨(x : ℕ), (y : ℕ), (z : ℕ), (w : ℚ) / 255⟩
      | _, _, _, _ => none
    | _ => none

/-! ## The tinycolor HSL machinery

These definitions embed the color-space operations of the external
`tinycolor2@1.6.0` collaborator that the source's `toGray` delegates to:
`toHsl`, `desaturate`/`greyscale` and `toHexString`, including the
`bound01`/`convertToPercentage` input normalisation tinycolor applies when
it rebuilds a color from an HSL record. -/

/-- HSL record as returned by tinycolor's `toHsl()`: hue scaled to
`[0, 360)`, saturation and lightness in `[0, 1]`. -/
structure JsHsl where
  h : ℚ
  s : ℚ
  l : ℚ
  deriving DecidableEq, Repr

/-- Model of tinycolor's `bound01(·, 255)` on a plain numeric channel:
clamp, then divide by 255, with the `Math.abs(n - 255) < 1e-6 → 1`
epsilon shortcut. -/
def chan01 (q : ℚ) : ℚ :=
  let n := min 255 (max 0 q)
  if 255 - n < 1 / 1000000 then 1 else n / 255

/-- Model of tinycolor's `rgbToHsl` (channels in `[0, 255]`, result hue in
`[0, 1]`). -/
def rgbToHsl01 (R G B : ℚ) : JsHsl :=
  let r := chan01 R
  let g := chan01 G
  let b := chan01 B
  let maxv := max r (max g b)
  let minv := min r (min g b)
  let l := (maxv + minv) / 2
  if maxv = minv then ⟨0, 0, l⟩
  else
    let d := maxv - minv
    let s := if 1 / 2 < l then d / (2 - maxv - minv) else d / (maxv + minv)
    let h :=
      if maxv = r then (g - b) / d + (if g < b then 6 else 0)
      else if maxv = g then (b - r) / d + 2
      else (r - g) / d + 4
    ⟨h / 6, s, l⟩

/-- Model of tinycolor's `toHsl()`: hue is scaled to degrees. -/
def toHsl (c : Rgba) : JsHsl :=
  let x := rgbToHsl01 c.r c.g c.b
  ⟨x.h * 360, x.s, x.l⟩

/-- Clamp to `[0, 1]`, tinycolor's `clamp01`. -/
def clamp01 (q : ℚ) : ℚ := min 1 (max 0 q)

/-- Model of tinycolor's `_desaturate` on the HSL record: subtract
`amount / 100` from the saturation and clamp to `[0, 1]`; hue and
lightness are untouched.  `greyscale()` is `desaturate(100)`. -/
def desaturateHsl (amount : ℕ) (hsl : JsHsl) : JsHsl :=
  ⟨hsl.h, clamp01 (hsl.s - (amount : ℚ) / 100), hsl.l⟩

/-- Model of tinycolor's `bound01(h, 360)` on the hue a `toHsl()` record
carries (a plain number): clamp to `[0, 360]`, epsilon shortcut at 360,
otherwise divide by 360. -/
def hueBound (h : ℚ) : ℚ :=
  let n := min 360 (max 0 h)
  if 360 - n < 1 / 1000000 then 1 else n / 360

/-- Model of tinycolor's `convertToPercentage` followed by
`bound01(·, 100)` on a saturation/lightness component.  For a value
`x ≤ 1` tinycolor renders it as a percent string and `bound01` then
truncates `x·10⁴` to an integer (JavaScript `parseInt`), giving
`⌊x·10⁴⌋ / 10⁴`; values above 1 take the plain numeric branch. -/
def cvtPctBound (x : ℚ) : ℚ :=
  if x ≤ 1 then (qfloor (max 0 x * 10000) : ℚ) / 10000
  else
    let n := min 100 x
    if 100 - n < 1 / 1000000 then 1 else n / 100

/-- Model of tinycolor's `hue2rgb`. -/
def hue2rgb (p q t : ℚ) : ℚ :=
  let t1 := if t < 0 then t + 1 else t
  let t2 := if 1 < t1 then t1 - 1 else t1
  if t2 < 1 / 6 then p + (q - p) * 6 * t2
  else if t2 < 1 / 2 then q
  else if t2 < 2 / 3 then p + (q - p) * (2 / 3 - t2) * 6
  else p

/-- Model of tinycolor's `hslToRgb` core (inputs already normalised to
`[0, 1]`), producing channels in `[0, 1]`. -/
def hslToRgb01 (h s l : ℚ) : ℚ × ℚ × ℚ :=
  if s = 0 then (l, l, l)
  else
    let q := if l < 1 / 2 then l * (1 + s) else l + s - l * s
    let p := 2 * l - q
    (hue2rgb p q (h + 1 / 3), hue2rgb p q h, hue2rgb p q (h - 1 / 3))

/-- Model of rebuilding a tinycolor instance from an HSL record
(`tinycolor(hsl)` inside `_desaturate`): normalise the components as
tinycolor's `inputToRGB` does, convert to RGB and scale to `[0, 255]`. -/
def tinycolorFromHsl (hsl : JsHsl) : ℚ × ℚ × ℚ :=
  let h := hueBound hsl.h
  let s := cvtPctBound hsl.s
  let l := cvtPctBound hsl.l
  let rgb := hslToRgb01 h s l
  (rgb.1 * 255, rgb.2.1 * 255, rgb.2.2 * 255)

/-- Model of tinycolor's `toHexString()`: round each channel and render as
`#` followed by three two-digit lowercase hexadecimal pairs (no alpha
component). -/
def rgbChansToHex (r g b : ℚ) : String :=
  ⟨'#' :: (toHex2 (jsRound r).toNat ++ toHex2 (jsRound g).toNat ++ toHex2 (jsRound b).toNat)⟩

/-! ## The color converter `toGray` -/

/-- Conversion configuration of `toGray` (`desaturationAmount`,
`grayscaleMethod`), as destructured from the options of
`convertSvgToGrayscale`.  The method is the raw string the source compares
against `'luminance'`. -/
structure GrayConfig where
  desaturationAmount : ℕ
  grayscaleMethod : String
  deriving DecidableEq, Repr

/-- Luminance-method gray channel of `toGray`: `0.299·R + 0.587·G +
0.114·B`, embedded exactly over ℚ. -/
def luminanceY (c : Rgba) : ℚ := (299 * c.r + 587 * c.g + 114 * c.b) / 1000

/-- HSL record the `'hsl'` branch of `toGray` feeds back into tinycolor:
the parsed color's `toHsl()` desaturated by the configured amount (100 for
the `greyscale()` branch). -/
def hslPathRecord (c : Rgba) (amount : ℕ) : JsHsl := desaturateHsl amount (toHsl c)

/-- Conversion `toGray` performs on a successfully parsed color (the part
of the source's `toGray` after the cache lookup and validity check). -/
def grayCompute (c : Rgba) (cfg : GrayConfig) : String :=
  if cfg.grayscaleMethod = "luminance" then
    let gray := toHex2 (jsRound (luminanceY c)).toNat
    ⟨'#' :: (gray ++ gray ++ gray)⟩
  else if cfg.desaturationAmount = 100 then
    let rgb := tinycolorFromHsl (hslPathRecord c 100)
    rgbChansToHex rgb.1 rgb.2.1 rgb.2.2
  else
    let rgb := tinycolorFromHsl (hslPathRecord c cfg.desaturationAmount)
    rgbChansToHex rgb.1 rgb.2.1 rgb.2.2

/-- Cache-free color conversion: the source's `toGray` with the per-call
memoization removed (parse, fall back to the original string when
invalid, otherwise convert). -/
def toGrayPure (originalColor : String) (cfg : GrayConfig) : String :=
  match tinycolorParse originalColor with
  | none => originalColor
  | some c => grayCompute c cfg

/-! ## The per-call conversion cache -/

/-- Per-call conversion cache: the JavaScript `Map` keyed by the composite
string key, modelled as an insertion-ordered association list. -/
abbrev Cache := List (String × String)

/-- First binding of a key in the cache (`Map.get` / `Map.has`). -/
def lookupCache (k : String) : Cache → Option String
  | [] => none
  | (k', v) :: rest => if k' = k then some v else lookupCache k rest

/-- Model of `Map.set`: overwrite the first binding of the key in place,
or append a fresh binding. -/
def insertCache (k v : String) : Cache → Cache
  | [] => [(k, v)]
  | (k', v') :: rest => if k' = k then (k, v) :: rest else (k', v') :: insertCache k v rest

/-- Cache key of `toGray`:
`` `${originalColor}:${desaturationAmount}:${grayscaleMethod}` ``. -/
def mkCacheKey (originalColor : String) (cfg : GrayConfig) : String :=
  originalColor ++ ":" ++ Nat.repr cfg.desaturationAmount ++ ":" ++ cfg.grayscaleMethod

/-- Source `toGray` (grayscale-svg.js lines 156–191): check the cache,
parse, return the original string unchanged when parsing fails, otherwise
convert and store the result.  The returned pair threads the mutable
cache. -/
def toGray (originalColor : String) (cfg : GrayConfig) (cache : Cache) : String × Cache :=
  match lookupCache (mkCacheKey originalColor cfg) cache with
  | some v => (v, cache)
  | none =>
    match tinycolorParse originalColor with
    | none => (originalColor, cache)
    | some c =>
      let finalHex := grayCompute c cfg
      (finalHex, insertCache (mkCacheKey originalColor cfg) finalHex cache)

/-! ## The SVG document tree -/

/-- Document tree node as produced by the external `svgson` parser: a tag
name, an attribute mapping (modelled as an insertion-ordered association
list, matching JavaScript object key order), and an ordered list of child
nodes. -/
inductive SvgNode where
  | mk (name : String) (attributes : List (String × String)) (children : List SvgNode)

/-- Tag name of a node. -/
def SvgNode.name : SvgNode → String
  | .mk n _ _ => n

/-- Attribute list of a node. -/
def SvgNode.attributes : SvgNode → List (String × String)
  | .mk _ a _ => a

/-- Children of a node. -/
def SvgNode.children : SvgNode → List SvgNode
  | .mk _ _ c => c

/-- First binding of an attribute name (JavaScript property read on the
attributes object; `none` models `undefined`). -/
def getAttr (k : String) : List (String × String) → Option String
  | [] => none
  | (k', v) :: rest => if k' = k then some v else getAttr k rest

/-- JavaScript property write `attributes[k] = v`: overwrite the first
binding in place, or append a fresh binding. -/
def setAttr (k v : String) : List (String × String) → List (String × String)
  | [] => [(k, v)]
  | (k', v') :: rest => if k' = k then (k, v) :: rest else (k', v') :: setAttr k v rest

/-- JavaScript `delete attributes[k]`: remove the key's bindings. -/
def delAttr (k : String) : List (String × String) → List (String × String)
  | [] => []
  | (k', v) :: rest => if k' = k then delAttr k rest else (k', v) :: delAttr k rest

/-! ## Style attribute expansion -/

/-- Style properties the expander recognises. -/
def styleProps : List String := ["fill", "stroke", "color", "stop-color"]

/-- Processing of one (already trimmed) style declaration by
`expandStyleAttributes`: skip empty declarations, split on every `':'`,
trim the pieces, and when the first piece is a recognised property assign
the second piece as the direct attribute.  (A declaration without a `':'`
makes JavaScript assign `undefined`; the model renders that value as the
string it would stringify to.) -/
def applyDecl (attrs : List (String × String)) (decl : String) : List (String × String) :=
  if decl = "" then attrs
  else
    let pieces := (jsSplit ':' decl).map jsTrim
    let prop := pieces.headD ""
    let val := pieces.getD 1 "undefined"
    if prop ∈ styleProps then setAttr prop val attrs else attrs

/-- Attribute-level part of `expandStyleAttributes`: when a node carries a
non-empty `style` attribute, split it on `';'`, trim, apply every
declaration, then delete the `style` attribute. -/
def expandAttrs (attrs : List (String × String)) : List (String × String) :=
  match getAttr "style" attrs with
  | some s =>
    if s = "" then attrs
    else delAttr "style" (((jsSplit ';' s).map jsTrim).foldl applyDecl attrs)
  | none => attrs

mutual

/-- Source `expandStyleAttributes` (grayscale-svg.js lines 78–104):
rewrite the node's inline `style` declarations into direct attributes and
recurse into the children. -/
def expandStyleAttributes : SvgNode → SvgNode
  | .mk name attrs children => .mk name (expandAttrs attrs) (expandChildren children)

/-- Recursion of `expandStyleAttributes` over a child list. -/
def expandChildren : List SvgNode → List SvgNode
  | [] => []
  | n :: ns => expandStyleAttributes n :: expandChildren ns

end

/-! ## The tree-rewrite walker -/

/-- One `fill`/`stroke`/`color` block of `traverseAndGrayscale`: when the
attribute is present, truthy (non-empty), not the literal `"none"` and not
a paint-server reference (`url(` head), replace it by the converted color,
threading the cache. -/
def convAttrStep (key : String) (cfg : GrayConfig) (attrs : List (String × String))
    (cache : Cache) : List (String × String) × Cache :=
  match getAttr key attrs with
  | some v =>
    if v ≠ "" ∧ v ≠ "none" ∧ jsStartsWith "url(" v = false then
      let r := toGray v cfg cache
      (setAttr key r.1 attrs, r.2)
    else (attrs, cache)
  | none => (attrs, cache)

/-- Gradient `stop-color` block of `traverseAndGrayscale`: only on nodes
named `stop`, with no `url(` guard. -/
def convStopColorStep (name : String) (cfg : GrayConfig) (attrs : List (String × String))
    (cache : Cache) : List (String × String) × Cache :=
  if name = "stop" then
    match getAttr "stop-color" attrs with
    | some v =>
      if v ≠ "" ∧ v ≠ "none" then
        let r := toGray v cfg cache
        (setAttr "stop-color" r.1 attrs, r.2)
      else (attrs, cache)
    | none => (attrs, cache)
  else (attrs, cache)

mutual

/-- Source `traverseAndGrayscale` (grayscale-svg.js lines 109–149):
convert the `fill`, `stroke`, `color` and (on `stop` nodes) `stop-color`
attributes of the node, then recurse into the children; the per-call cache
is threaded through in evaluation order. -/
def traverseAndGrayscale : SvgNode → GrayConfig → Cache → SvgNode × Cache
  | .mk name attrs children, cfg, cache =>
    let r1 := convAttrStep "fill" cfg attrs cache
    let r2 := convAttrStep "stroke" cfg r1.1 r1.2
    let r3 := convAttrStep "color" cfg r2.1 r2.2
    let r4 := convStopColorStep name cfg r3.1 r3.2
    let rc := traverseChildren children cfg r4.2
    (.mk name r4.1 rc.1, rc.2)

/-- Recursion of `traverseAndGrayscale` over a child list. -/
def traverseChildren : List SvgNode → GrayConfig → Cache → List SvgNode × Cache
  | [], _, cache => ([], cache)
  | n :: ns, cfg, cache =>
    let r := traverseAndGrayscale n cfg cache
    let rs := traverseChildren ns cfg r.2
    (r.1 :: rs.1, rs.2)

end

/-- Cache-free attribute conversion of one `fill`/`stroke`/`color`
block. -/
def convAttrStepPure (key : String) (cfg : GrayConfig)
    (attrs : List (String × String)) : List (String × String) :=
  match getAttr key attrs with
  | some v =>
    if v ≠ "" ∧ v ≠ "none" ∧ jsStartsWith "url(" v = false then
      setAttr key (toGrayPure v cfg) attrs
    else attrs
  | none => attrs

/-- Cache-free `stop-color` block. -/
def convStopColorStepPure (name : String) (cfg : GrayConfig)
    (attrs : List (String × String)) : List (String × String) :=
  if name = "stop" then
    match getAttr "stop-color" attrs with
    | some v =>
      if v ≠ "" ∧ v ≠ "none" then setAttr "stop-color" (toGrayPure v cfg) attrs
      else attrs
    | none => attrs
  else attrs

mutual

/-- Variant of the walker that never consults or fills the cache: every
color is converted afresh with `toGrayPure`. -/
def traverseAndGrayscalePure : SvgNode → GrayConfig → SvgNode
  | .mk name attrs children, cfg =>
    let a1 := convAttrStepPure "fill" cfg attrs
    let a2 := convAttrStepPure "stroke" cfg a1
    let a3 := convAttrStepPure "color" cfg a2
    let a4 := convStopColorStepPure name cfg a3
    .mk name a4 (traverseChildrenPure children cfg)

/-- Recursion of the cache-free walker over a child list. -/
def traverseChildrenPure : List SvgNode → GrayConfig → List SvgNode
  | [], _ => []
  | n :: ns, cfg => traverseAndGrayscalePure n cfg :: traverseChildrenPure ns cfg

end

/-- Tree-level content of the orchestrator `convertSvgToGrayscale`
(grayscale-svg.js lines 34–59) between the external parse and stringify
steps: expand inline styles, then run the walker with a fresh empty cache.
(`detectStyleElements` only emits a diagnostic and performs no mutation,
so it does not appear in the tree transform.) -/
def grayscaleTree (t : SvgNode) (cfg : GrayConfig) : SvgNode :=
  (traverseAndGrayscale (expandStyleAttributes t) cfg []).1

/-! ## Structural projections used to state round-trip fidelity -/

/-- Plain labelled rose tree. -/
inductive LTree (α : Type) where
  | node (label : α) (children : List (LTree α))

/-- Root label of a labelled tree. -/
def LTree.label {α : Type} : LTree α → α
  | .node a _ => a

mutual

/-- Number of nodes of a document tree. -/
def nodeCount : SvgNode → ℕ
  | .mk _ _ children => 1 + nodeCountList children

/-- Number of nodes of a forest. -/
def nodeCountList : List SvgNode → ℕ
  | [] => 0
  | n :: ns => nodeCount n + nodeCountList ns

end

mutual

/-- Tag names of a document tree, in tree position. -/
def nameShape : SvgNode → LTree String
  | .mk name _ children => .node name (nameShapeList children)

/-- Tag names of a forest. -/
def nameShapeList : List SvgNode → List (LTree String)
  | [] => []
  | n :: ns => nameShape n :: nameShapeList ns

end

mutual

/-- Attributes satisfying a key predicate, in tree position. -/
def attrShape (keep : String → Bool) : SvgNode → LTree (List (String × String))
  | .mk _ attrs children => .node (attrs.filter fun p => keep p.1) (attrShapeList keep children)

/-- Attribute projection of a forest. -/
def attrShapeList (keep : String → Bool) : List SvgNode → List (LTree (List (String × String)))
  | [] => []
  | n :: ns => attrShape keep n :: attrShapeList keep ns

end

/-- Keys whose values the conversion is allowed to touch: the four color
attributes.  Everything else is a "non-color attribute" in the sense of
the round-trip fidelity property. -/
def colorAttrKeys : List String := ["fill", "stroke", "color", "stop-color"]

/-- Cache-free variant of the whole tree transform. -/
def grayscaleTreePure (t : SvgNode) (cfg : GrayConfig) : SvgNode :=
  traverseAndGrayscalePure (expandStyleAttributes t) cfg

/-! ## Association-list lemmas -/

theorem getAttr_setAttr (k k' v : String) (a : List (String × String)) :
    getAttr k (setAttr k' v a) = if k' = k then some v else getAttr k a := by
  induction a with
  | nil => by_cases h : k' = k <;> simp [getAttr, setAttr, h]
  | cons p rest ih =>
    obtain ⟨pk, pv⟩ := p
    by_cases h1 : pk = k'
    · subst h1
      by_cases h2 : pk = k <;> simp [setAttr, getAttr, h2]
    · simp only [setAttr, if_neg h1]
      by_cases h2 : pk = k
      · subst h2
        have hne : ¬ k' = pk := fun e => h1 e.symm
        simp [getAttr, hne]
      · simp [getAttr, h2, ih]

theorem getAttr_delAttr (k k' : String) (a : List (String × String)) :
    getAttr k (delAttr k' a) = if k = k' then none else getAttr k a := by
  induction a with
  | nil => by_cases h : k = k' <;> simp [getAttr, delAttr, h]
  | cons p rest ih =>
    obtain ⟨pk, pv⟩ := p
    by_cases h1 : pk = k'
    · subst h1
      by_cases h2 : k = pk
      · subst h2
        simpa [delAttr] using ih
      · have hne : ¬ pk = k := fun e => h2 e.symm
        simp [delAttr, getAttr, h2, hne, ih]
    · simp only [delAttr, if_neg h1]
      by_cases h2 : pk = k
      · subst h2
        have hne : ¬ pk = k' := h1
        simp [getAttr, fun e => hne (e : pk = k'), ih]
      · simp [getAttr, h2, ih]

theorem filter_setAttr (P : String → Bool) (k v : String) (a : List (String × String))
    (hk : P k = false) :
    (setAttr k v a).filter (fun p => P p.1) = a.filter (fun p => P p.1) := by
  induction a with
  | nil => simp [setAttr, List.filter, hk]
  | cons p rest ih =>
    obtain ⟨pk, pv⟩ := p
    by_cases h1 : pk = k
    · subst h1
      simp [setAttr, List.filter, hk]
    · simp only [setAttr, if_neg h1, List.filter]
      cases hP : P pk <;> simp [hP, ih]

theorem filter_delAttr (P : String → Bool) (k : String) (a : List (String × String))
    (hk : P k = false) :
    (delAttr k a).filter (fun p => P p.1) = a.filter (fun p => P p.1) := by
  induction a with
  | nil => simp [delAttr]
  | cons p rest ih =>
    obtain ⟨pk, pv⟩ := p
    by_cases h1 : pk = k
    · subst h1
      simp [delAttr, List.filter, hk, ih]
    · simp only [delAttr, if_neg h1, List.filter]
      cases hP : P pk <;> simp [hP, ih]

theorem lookupCache_insertCache (k k' v : String) (c : Cache) :
    lookupCache k (insertCache k' v c) = if k' = k then some v else lookupCache k c := by
  induction c with
  | nil => simp [lookupCache, insertCache]
  | cons p rest ih =>
    obtain ⟨pk, pv⟩ := p
    by_cases h1 : pk = k'
    · simp only [insertCache, if_pos h1]
      by_cases h2 : k' = k
      · simp [lookupCache, h2]
      · have : pk ≠ k := fun e => h2 (h1 ▸ e : k' = k)
        simp [lookupCache, h2, this]
    · simp only [insertCache, if_neg h1]
      by_cases h2 : pk = k
      · have : k' ≠ k := fun e => h1 (e ▸ h2)
        simp [lookupCache, h2, this]
      · simp [lookupCache, h2, ih]

/-! ## Cache consistency and transparency of `toGray` -/

/-- Invariant of the per-call cache: every stored entry is exactly what a
fresh computation would produce. -/
def CacheOK (cfg : GrayConfig) (cache : Cache) : Prop :=
  ∀ s v, lookupCache (mkCacheKey s cfg) cache = some v → v = toGrayPure s cfg

theorem cacheOK_nil (cfg : GrayConfig) : CacheOK cfg [] := by
  intro s v h
  simp [lookupCache] at h

theorem mkCacheKey_inj {s₁ s₂ : String} {cfg : GrayConfig}
    (h : mkCacheKey s₁ cfg = mkCacheKey s₂ cfg) : s₁ = s₂ := by
  have hd : s₁.data ++ (":" ++ Nat.repr cfg.desaturationAmount ++ ":" ++ cfg.grayscaleMethod).data
      = s₂.data ++ (":" ++ Nat.repr cfg.desaturationAmount ++ ":" ++ cfg.grayscaleMethod).data := by
    have h2 := congrArg String.data h
    simpa [mkCacheKey, String.data_append, List.append_assoc] using h2
  cases s₁ with
  | _ d₁ =>
    cases s₂ with
    | _ d₂ => exact congrArg String.mk (List.append_cancel_right hd)

theorem toGray_fst {cfg : GrayConfig} {cache : Cache} (hc : CacheOK cfg cache)
    (s : String) : (toGray s cfg cache).1 = toGrayPure s cfg := by
  unfold toGray
  cases hl : lookupCache (mkCacheKey s cfg) cache with
  | some v => simpa using hc s v hl
  | none =>
    cases hp : tinycolorParse s with
    | none => simp [toGrayPure, hp]
    | some c => simp [toGrayPure, hp]

theorem toGray_snd {cfg : GrayConfig} {cache : Cache} (hc : CacheOK cfg cache)
    (s : String) : CacheOK cfg (toGray s cfg cache).2 := by
  unfold toGray
  cases hl : lookupCache (mkCacheKey s cfg) cache with
  | some v => simpa using hc
  | none =>
    cases hp : tinycolorParse s with
    | none => simpa using hc
    | some c =>
      simp only
      intro s' v' h'
      rw [lookupCache_insertCache] at h'
      by_cases hk : mkCacheKey s cfg = mkCacheKey s' cfg
      · have hs : s = s' := mkCacheKey_inj hk
        rw [if_pos hk] at h'
        subst hs
        have hv : grayCompute c cfg = v' := Option.some_inj.mp h'
        simp [toGrayPure, hp, ← hv]
      · rw [if_neg hk] at h'
        exact hc s' v' h'

/-! ## Cache transparency of the walker -/

/-- Structural strong induction over document trees. -/
theorem SvgNode.strongInd (P : SvgNode → Prop)
    (h : ∀ name attrs children, (∀ c ∈ children, P c) → P (.mk name attrs children)) :
    ∀ t, P t
  | .mk name attrs children =>
    h name attrs children fun c hc =>
      have : sizeOf c < sizeOf (SvgNode.mk name attrs children) := by
        have := List.sizeOf_lt_of_mem hc
        simp only [SvgNode.mk.sizeOf_spec]
        omega
      SvgNode.strongInd P h c
termination_by t => sizeOf t

theorem convAttrStep_fst {cfg : GrayConfig} {cache : Cache} (hc : CacheOK cfg cache)
    (key : String) (attrs : List (String × String)) :
    (convAttrStep key cfg attrs cache).1 = convAttrStepPure key cfg attrs := by
  unfold convAttrStep convAttrStepPure
  cases hv : getAttr key attrs with
  | none => rfl
  | some v =>
    by_cases hcond : v ≠ "" ∧ v ≠ "none" ∧ jsStartsWith "url(" v = false
    · simp [hcond, toGray_fst hc]
    · simp [hcond]

theorem convAttrStep_snd {cfg : GrayConfig} {cache : Cache} (hc : CacheOK cfg cache)
    (key : String) (attrs : List (String × String)) :
    CacheOK cfg (convAttrStep key cfg attrs cache).2 := by
  unfold convAttrStep
  cases hv : getAttr key attrs with
  | none => simpa using hc
  | some v =>
    by_cases hcond : v ≠ "" ∧ v ≠ "none" ∧ jsStartsWith "url(" v = false
    · simpa [hcond] using toGray_snd hc v
    · simpa [hcond] using hc

theorem convStopColorStep_fst {cfg : GrayConfig} {cache : Cache} (hc : CacheOK cfg cache)
    (name : String) (attrs : List (String × String)) :
    (convStopColorStep name cfg attrs cache).1 = convStopColorStepPure name cfg attrs := by
  unfold convStopColorStep convStopColorStepPure
  by_cases hn : name = "stop"
  · simp only [if_pos hn]
    cases hv : getAttr "stop-color" attrs with
    | none => rfl
    | some v =>
      by_cases hcond : v ≠ "" ∧ v ≠ "none"
      · simp [hcond, toGray_fst hc]
      · simp [hcond]
  · simp [hn]

theorem convStopColorStep_snd {cfg : GrayConfig} {cache : Cache} (hc : CacheOK cfg cache)
    (name : String) (attrs : List (String × String)) :
    CacheOK cfg (convStopColorStep name cfg attrs cache).2 := by
  unfold convStopColorStep
  by_cases hn : name = "stop"
  · simp only [if_pos hn]
    cases hv : getAttr "stop-color" attrs with
    | none => simpa using hc
    | some v =>
      by_cases hcond : v ≠ "" ∧ v ≠ "none"
      · simpa [hcond] using toGray_snd hc v
      · simpa [hcond] using hc
  · simpa [hn] using hc

theorem traverseChildren_cache_transparent (cfg : GrayConfig) (ns : List SvgNode)
    (hmem : ∀ n ∈ ns, ∀ cache : Cache, CacheOK cfg cache →
      (traverseAndGrayscale n cfg cache).1 = traverseAndGrayscalePure n cfg ∧
        CacheOK cfg (traverseAndGrayscale n cfg cache).2) :
    ∀ cache : Cache, CacheOK cfg cache →
      (traverseChildren ns cfg cache).1 = traverseChildrenPure ns cfg ∧
        CacheOK cfg (traverseChildren ns cfg cache).2 := by
  induction ns with
  | nil =>
    intro cache hc
    exact ⟨rfl, hc⟩
  | cons n rest ihl =>
    intro cache hc
    have h1 := hmem n (by simp) cache hc
    have h2 := ihl (fun m hm => hmem m (by simp [hm])) (traverseAndGrayscale n cfg cache).2 h1.2
    simp only [traverseChildren, traverseChildrenPure]
    exact ⟨by rw [h1.1, h2.1], h2.2⟩

theorem traverse_cache_transparent (cfg : GrayConfig) :
    ∀ t : SvgNode, ∀ cache : Cache, CacheOK cfg cache →
      (traverseAndGrayscale t cfg cache).1 = traverseAndGrayscalePure t cfg ∧
        CacheOK cfg (traverseAndGrayscale t cfg cache).2 := by
  intro t
  induction t using SvgNode.strongInd with
  | _ name attrs children ih =>
    intro cache hc
    have s1s := convAttrStep_snd hc "fill" attrs
    have s2s := convAttrStep_snd s1s "stroke" (convAttrStep "fill" cfg attrs cache).1
    have s3s := convAttrStep_snd s2s "color"
      (convAttrStep "stroke" cfg (convAttrStep "fill" cfg attrs cache).1
        (convAttrStep "fill" cfg attrs cache).2).1
    have s4s := convStopColorStep_snd s3s name
      (convAttrStep "color" cfg
        (convAttrStep "stroke" cfg (convAttrStep "fill" cfg attrs cache).1
          (convAttrStep "fill" cfg attrs cache).2).1
        (convAttrStep "stroke" cfg (convAttrStep "fill" cfg attrs cache).1
          (convAttrStep "fill" cfg attrs cache).2).2).1
    have hch := traverseChildren_cache_transparent cfg children ih _ s4s
    have s1f := convAttrStep_fst hc "fill" attrs
    have s2f := convAttrStep_fst s1s "stroke" (convAttrStep "fill" cfg attrs cache).1
    have s3f := convAttrStep_fst s2s "color"
      (convAttrStep "stroke" cfg (convAttrStep "fill" cfg attrs cache).1
        (convAttrStep "fill" cfg attrs cache).2).1
    have s4f := convStopColorStep_fst s3s name
      (convAttrStep "color" cfg
        (convAttrStep "stroke" cfg (convAttrStep "fill" cfg attrs cache).1
          (convAttrStep "fill" cfg attrs cache).2).1
        (convAttrStep "stroke" cfg (convAttrStep "fill" cfg attrs cache).1
          (convAttrStep "fill" cfg attrs cache).2).2).1
    refine ⟨?_, ?_⟩
    · simp only [traverseAndGrayscale, traverseAndGrayscalePure]
      rw [hch.1, s4f, s3f, s2f, s1f]
    · simp only [traverseAndGrayscale]
      exact hch.2

/-! ## Structural fidelity of the tree transform -/

theorem applyDecl_filter (P : String → Bool) (hc : ∀ k ∈ styleProps, P k = false)
    (a : List (String × String)) (d : String) :
    (applyDecl a d).filter (fun p => P p.1) = a.filter (fun p => P p.1) := by
  unfold applyDecl
  by_cases hd : d = ""
  · simp [hd]
  · simp only [if_neg hd]
    split
    · next hp => exact filter_setAttr P _ _ a (hc _ hp)
    · next hp => rfl

theorem foldl_applyDecl_filter (P : String → Bool) (hc : ∀ k ∈ styleProps, P k = false)
    (ds : List String) : ∀ a : List (String × String),
    (ds.foldl applyDecl a).filter (fun p => P p.1) = a.filter (fun p => P p.1) := by
  induction ds with
  | nil => intro a; rfl
  | cons d rest ih =>
    intro a
    simp only [List.foldl]
    rw [ih, applyDecl_filter P hc]

theorem expandAttrs_filter (P : String → Bool) (hc : ∀ k ∈ styleProps, P k = false)
    (hstyle : P "style" = false) (a : List (String × String)) :
    (expandAttrs a).filter (fun p => P p.1) = a.filter (fun p => P p.1) := by
  unfold expandAttrs
  cases hs : getAttr "style" a with
  | none => rfl
  | some s =>
    by_cases he : s = ""
    · simp [he]
    · simp only [if_neg he]
      rw [filter_delAttr P _ _ hstyle, foldl_applyDecl_filter P hc]

theorem convAttrStepPure_filter (P : String → Bool) (key : String) (hk : P key = false)
    (cfg : GrayConfig) (a : List (String × String)) :
    (convAttrStepPure key cfg a).filter (fun p => P p.1) = a.filter (fun p => P p.1) := by
  unfold convAttrStepPure
  cases hv : getAttr key a with
  | none => rfl
  | some v =>
    by_cases hcond : v ≠ "" ∧ v ≠ "none" ∧ jsStartsWith "url(" v = false
    · simp only [if_pos hcond]
      exact filter_setAttr P key _ a hk
    · simp [hcond]

theorem convStopColorStepPure_filter (P : String → Bool)
    (hk : P "stop-color" = false) (name : String) (cfg : GrayConfig)
    (a : List (String × String)) :
    (convStopColorStepPure name cfg a).filter (fun p => P p.1) = a.filter (fun p => P p.1) := by
  unfold convStopColorStepPure
  by_cases hn : name = "stop"
  · simp only [if_pos hn]
    cases hv : getAttr "stop-color" a with
    | none => rfl
    | some v =>
      by_cases hcond : v ≠ "" ∧ v ≠ "none"
      · simp only [if_pos hcond]
        exact filter_setAttr P _ _ a hk
      · simp [hcond]
  · simp [hn]

/-- Projection triple preserved by a pass over one node's tree. -/
def ProjEq (P : String → Bool) (t' t : SvgNode) : Prop :=
  nodeCount t' = nodeCount t ∧ nameShape t' = nameShape t ∧
    attrShape P t' = attrShape P t

theorem projEq_mk {P : String → Bool} {name : String}
    {a' a : List (String × String)} {cs' cs : List SvgNode}
    (ha : a'.filter (fun p => P p.1) = a.filter (fun p => P p.1))
    (hcount : nodeCountList cs' = nodeCountList cs)
    (hname : nameShapeList cs' = nameShapeList cs)
    (hattr : attrShapeList P cs' = attrShapeList P cs) :
    ProjEq P (.mk name a' cs') (.mk name a cs) := by
  refine ⟨?_, ?_, ?_⟩
  · simp [nodeCount, hcount]
  · simp [nameShape, hname]
  · simp [attrShape, ha, hattr]

theorem traversePure_projEq (cfg : GrayConfig) (P : String → Bool)
    (hc : ∀ k ∈ colorAttrKeys, P k = false) :
    ∀ t : SvgNode, ProjEq P (traverseAndGrayscalePure t cfg) t := by
  intro t
  induction t using SvgNode.strongInd with
  | _ name attrs children ih =>
    have hlist : ∀ ns : List SvgNode, (∀ n ∈ ns, ProjEq P (traverseAndGrayscalePure n cfg) n) →
        nodeCountList (traverseChildrenPure ns cfg) = nodeCountList ns ∧
        nameShapeList (traverseChildrenPure ns cfg) = nameShapeList ns ∧
        attrShapeList P (traverseChildrenPure ns cfg) = attrShapeList P ns := by
      intro ns
      induction ns with
      | nil => intro _; exact ⟨rfl, rfl, rfl⟩
      | cons n rest ihl =>
        intro hmem
        have h1 := hmem n (by simp)
        have h2 := ihl fun m hm => hmem m (by simp [hm])
        refine ⟨?_, ?_, ?_⟩
        · simp [traverseChildrenPure, nodeCountList, h1.1, h2.1]
        · simp [traverseChildrenPure, nameShapeList, h1.2.1, h2.2.1]
        · simp [traverseChildrenPure, attrShapeList, h1.2.2, h2.2.2]
    have hfill : P "fill" = false := hc _ (by simp [colorAttrKeys])
    have hstroke : P "stroke" = false := hc _ (by simp [colorAttrKeys])
    have hcolor : P "color" = false := hc _ (by simp [colorAttrKeys])
    have hstop : P "stop-color" = false := hc _ (by simp [colorAttrKeys])
    have ha : (convStopColorStepPure name cfg
          (convAttrStepPure "color" cfg
            (convAttrStepPure "stroke" cfg
              (convAttrStepPure "fill" cfg attrs)))).filter (fun p => P p.1) =
        attrs.filter (fun p => P p.1) := by
      rw [convStopColorStepPure_filter P hstop, convAttrStepPure_filter P _ hcolor,
        convAttrStepPure_filter P _ hstroke, convAttrStepPure_filter P _ hfill]
    have hch := hlist children ih
    simpa only [traverseAndGrayscalePure] using
      projEq_mk ha hch.1 hch.2.1 hch.2.2

theorem expand_projEq (P : String → Bool)
    (hc : ∀ k ∈ styleProps, P k = false) (hstyle : P "style" = false) :
    ∀ t : SvgNode, ProjEq P (expandStyleAttributes t) t := by
  intro t
  induction t using SvgNode.strongInd with
  | _ name attrs children ih =>
    have hlist : ∀ ns : List SvgNode, (∀ n ∈ ns, ProjEq P (expandStyleAttributes n) n) →
        nodeCountList (expandChildren ns) = nodeCountList ns ∧
        nameShapeList (expandChildren ns) = nameShapeList ns ∧
        attrShapeList P (expandChildren ns) = attrShapeList P ns := by
      intro ns
      induction ns with
      | nil => intro _; exact ⟨rfl, rfl, rfl⟩
      | cons n rest ihl =>
        intro hmem
        have h1 := hmem n (by simp)
        have h2 := ihl fun m hm => hmem m (by simp [hm])
        refine ⟨?_, ?_, ?_⟩
        · simp [expandChildren, nodeCountList, h1.1, h2.1]
        · simp [expandChildren, nameShapeList, h1.2.1, h2.2.1]
        · simp [expandChildren, attrShapeList, h1.2.2, h2.2.2]
    have hch := hlist children ih
    simpa only [expandStyleAttributes] using
      projEq_mk (expandAttrs_filter P hc hstyle attrs) hch.1 hch.2.1 hch.2.2

/-- Key predicate of the round-trip fidelity property as amended: keep
every attribute that is neither one of the four color attributes nor
`style`. -/
def keepNonColorStyle (k : String) : Bool :=
  decide (k ∉ colorAttrKeys ∧ k ≠ "style")

/-- Key predicate of the round-trip fidelity property as literally stated
by the spec: keep every attribute other than the four color attributes. -/
def keepNonColor (k : String) : Bool := decide (k ∉ colorAttrKeys)

/-! ## Arithmetic facts about the embedded JavaScript primitives -/

theorem qfloor_eq_floor (q : ℚ) : qfloor q = ⌊q⌋ := by
  rw [Rat.floor_def, qfloor, Int.fdiv_eq_ediv _ (by positivity)]

theorem jsRound_nonneg {q : ℚ} (h : 0 ≤ q) : 0 ≤ jsRound q := by
  rw [jsRound, qfloor_eq_floor]
  exact Int.floor_nonneg.mpr (by linarith)

theorem jsRound_le_255 {q : ℚ} (h : q ≤ 255) : jsRound q ≤ 255 := by
  rw [jsRound, qfloor_eq_floor]
  have h2 : ⌊q + 1 / 2⌋ < 256 := Int.floor_lt.mpr (by push_cast; linarith)
  omega

theorem hexVal_le {c : Char} {n : ℕ} (h : hexVal c = some n) : n ≤ 15 := by
  unfold hexVal at h
  dsimp only at h
  split at h
  · next hc => cases h; omega
  · split at h
    · next hc => cases h; omega
    · split at h
      · next hc => cases h; omega
      · cases h

theorem parseHex2_le {a b : Char} {n : ℕ} (h : parseHex2 a b = some n) : n ≤ 255 := by
  unfold parseHex2 at h
  cases ha : hexVal a with
  | none => rw [ha] at h; cases h
  | some x =>
    cases hb : hexVal b with
    | none => rw [ha, hb] at h; cases h
    | some y =>
      rw [ha, hb] at h
      cases h
      have h1 := hexVal_le ha
      have h2 := hexVal_le hb
      omega

theorem hexChar_facts : ∀ n < 16, hexVal (hexChar n) = some n ∧
    Char.toLower (hexChar n) = hexChar n ∧ jsSpace (hexChar n) = false ∧
    (hexChar n).toNat ≠ 35 := by decide

theorem natHexAux_zero (f : ℕ) : natHexAux f 0 = [] := by
  cases f <;> simp [natHexAux]

theorem natHexAux_small {f n : ℕ} (h1 : 1 ≤ n) (h2 : n < 16) (hf : 1 ≤ f) :
    natHexAux f n = [hexChar n] := by
  obtain ⟨k, rfl⟩ : ∃ k, f = k + 1 := ⟨f - 1, by omega⟩
  have hn : ¬ n = 0 := by omega
  simp [natHexAux, hn, Nat.div_eq_of_lt h2, natHexAux_zero, Nat.mod_eq_of_lt h2]

theorem natHexAux_mid {f n : ℕ} (h1 : 16 ≤ n) (h2 : n < 256) (hf : 2 ≤ f) :
    natHexAux f n = [hexChar (n / 16), hexChar (n % 16)] := by
  obtain ⟨k, rfl⟩ : ∃ k, f = k + 1 := ⟨f - 1, by omega⟩
  have hn : ¬ n = 0 := by omega
  simp only [natHexAux, if_neg hn]
  rw [natHexAux_small (by omega) (by omega) (by omega)]
  rfl

theorem toHex2_eq {n : ℕ} (h : n ≤ 255) :
    toHex2 n = [hexChar (n / 16), hexChar (n % 16)] := by
  by_cases h0 : n = 0
  · subst h0; decide
  · by_cases h16 : n < 16
    · unfold toHex2 jsHexStr
      rw [if_neg h0, natHexAux_small (by omega) h16 (by omega)]
      have hd : n / 16 = 0 := Nat.div_eq_of_lt h16
      have hm : n % 16 = n := Nat.mod_eq_of_lt h16
      simp [pad2, hd, hm]
      decide
    · unfold toHex2 jsHexStr
      rw [if_neg h0, natHexAux_mid (by omega) (by omega) (by omega)]
      simp [pad2]

/-! ## Range facts about the parser and the HSL pipeline -/

theorem clamp255_mem (q : ℚ) : 0 ≤ clamp255 q ∧ clamp255 q ≤ 255 := by
  unfold clamp255
  constructor
  · exact le_min (by norm_num) (le_max_left 0 q)
  · exact min_le_left _ _

theorem boundAlpha_mem (q : ℚ) : 0 ≤ boundAlpha q ∧ boundAlpha q ≤ 1 := by
  unfold boundAlpha
  split
  · norm_num
  · next h =>
    push_neg at h
    exact ⟨h.1, h.2⟩

theorem tinycolorParse_bounds {s : String} {c : Rgba} (h : tinycolorParse s = some c) :
    0 ≤ c.r ∧ c.r ≤ 255 ∧ 0 ≤ c.g ∧ c.g ≤ 255 ∧ 0 ≤ c.b ∧ c.b ≤ 255 ∧
      0 ≤ c.a ∧ c.a ≤ 1 := by
  unfold tinycolorParse at h
  dsimp only at h
  split at h
  · -- rgba( branch
    split at h
    · next r g b a heq =>
      cases h
      refine ⟨(clamp255_mem r).1, (clamp255_mem r).2, (clamp255_mem g).1, (clamp255_mem g).2,
        (clamp255_mem b).1, (clamp255_mem b).2, (boundAlpha_mem a).1, (boundAlpha_mem a).2⟩
    · cases h
  · split at h
    · -- rgb( branch
      split at h
      · next r g b heq =>
        cases h
        refine ⟨(clamp255_mem r).1, (clamp255_mem r).2, (clamp255_mem g).1, (clamp255_mem g).2,
          (clamp255_mem b).1, (clamp255_mem b).2, by norm_num, by norm_num⟩
      · cases h
    · -- hex branches
      split at h
      · -- hex3
        split at h
        · next x y z hx hy hz =>
          cases h
          have h1 := hexVal_le hx
          have h2 := hexVal_le hy
          have h3 := hexVal_le hz
          refine ⟨by positivity, ?_, by positivity, ?_, by positivity, ?_, by norm_num, by norm_num⟩
          · show ((17 * x : ℕ) : ℚ) ≤ 255
            exact_mod_cast (by omega : 17 * x ≤ 255)
          · show ((17 * y : ℕ) : ℚ) ≤ 255
            exact_mod_cast (by omega : 17 * y ≤ 255)
          · show ((17 * z : ℕ) : ℚ) ≤ 255
            exact_mod_cast (by omega : 17 * z ≤ 255)
        · cases h
      · -- hex6
        split at h
        · next x y z hx hy hz =>
          cases h
          have h1 := parseHex2_le hx
          have h2 := parseHex2_le hy
          have h3 := parseHex2_le hz
          refine ⟨by positivity, ?_, by positivity, ?_, by positivity, ?_, by norm_num, by norm_num⟩
          · show ((x : ℕ) : ℚ) ≤ 255
            exact_mod_cast h1
          · show ((y : ℕ) : ℚ) ≤ 255
            exact_mod_cast h2
          · show ((z : ℕ) : ℚ) ≤ 255
            exact_mod_cast h3
        · cases h
      · -- hex8
        split at h
        · next x y z w hx hy hz hw =>
          cases h
          have h1 := parseHex2_le hx
          have h2 := parseHex2_le hy
          have h3 := parseHex2_le hz
          have h4 := parseHex2_le hw
          refine ⟨by positivity, ?_, by positivity, ?_, by positivity, ?_, by positivity, ?_⟩
          · show ((x : ℕ) : ℚ) ≤ 255
            exact_mod_cast h1
          · show ((y : ℕ) : ℚ) ≤ 255
            exact_mod_cast h2
          · show ((z : ℕ) : ℚ) ≤ 255
            exact_mod_cast h3
          · show ((w : ℕ) : ℚ) / 255 ≤ 1
            rw [div_le_one (by norm_num)]
            exact_mod_cast h4
        · cases h
      · cases h

theorem luminanceY_mem {c : Rgba} (hr : 0 ≤ c.r) (hr2 : c.r ≤ 255) (hg : 0 ≤ c.g)
    (hg2 : c.g ≤ 255) (hb : 0 ≤ c.b) (hb2 : c.b ≤ 255) :
    0 ≤ luminanceY c ∧ luminanceY c ≤ 255 := by
  unfold luminanceY
  constructor
  · positivity
  · rw [div_le_iff₀ (by norm_num)]
    nlinarith

theorem hueBound_mem (h : ℚ) : 0 ≤ hueBound h ∧ hueBound h ≤ 1 := by
  unfold hueBound
  dsimp only
  have h1 : (0 : ℚ) ≤ min 360 (max 0 h) := le_min (by norm_num) (le_max_left 0 h)
  have h2 : min 360 (max 0 h) ≤ 360 := min_le_left _ _
  split
  · norm_num
  · constructor
    · positivity
    · rw [div_le_one (by norm_num)]
      exact h2

theorem cvtPctBound_mem (x : ℚ) : 0 ≤ cvtPctBound x ∧ cvtPctBound x ≤ 1 := by
  unfold cvtPctBound
  dsimp only
  split
  · next hx =>
    rw [qfloor_eq_floor]
    have h0 : (0 : ℚ) ≤ max 0 x := le_max_left 0 x
    have h1 : max 0 x ≤ 1 := max_le (by norm_num) hx
    constructor
    · have : (0 : ℤ) ≤ ⌊max 0 x * 10000⌋ := Int.floor_nonneg.mpr (by positivity)
      positivity
    · rw [div_le_one (by norm_num)]
      have hfl : ⌊max 0 x * 10000⌋ ≤ 10000 := by
        calc ⌊max 0 x * 10000⌋ ≤ ⌊(10000 : ℚ)⌋ := Int.floor_le_floor (by nlinarith)
          _ = 10000 := by norm_num
      exact_mod_cast hfl
  · next hx =>
    push_neg at hx
    have h1 : (1 : ℚ) ≤ min 100 x := le_min (by norm_num) (le_of_lt hx)
    have h2 : min 100 x ≤ 100 := min_le_left _ _
    split
    · norm_num
    · constructor
      · positivity
      · rw [div_le_one (by norm_num)]
        exact h2

theorem hue2rgb_mem {p q t : ℚ} (hp0 : 0 ≤ p) (hp1 : p ≤ 1) (hq0 : 0 ≤ q) (hq1 : q ≤ 1)
    (ht0 : -1 ≤ t) (ht1 : t ≤ 2) : 0 ≤ hue2rgb p q t ∧ hue2rgb p q t ≤ 1 := by
  unfold hue2rgb
  dsimp only
  have ht2 : 0 ≤ (if 1 < (if t < 0 then t + 1 else t) then (if t < 0 then t + 1 else t) - 1
      else (if t < 0 then t + 1 else t)) ∧
      (if 1 < (if t < 0 then t + 1 else t) then (if t < 0 then t + 1 else t) - 1
      else (if t < 0 then t + 1 else t)) ≤ 1 := by
    split <;> split <;> constructor <;> simp_all <;> linarith
  set u := (if 1 < (if t < 0 then t + 1 else t) then (if t < 0 then t + 1 else t) - 1
      else (if t < 0 then t + 1 else t)) with hu
  obtain ⟨hu0, hu1⟩ := ht2
  split
  · next h6 =>
    constructor
    · nlinarith
    · nlinarith
  · split
    · exact ⟨hq0, hq1⟩
    · split
      · next h23 =>
        constructor
        · nlinarith
        · nlinarith
      · exact ⟨hp0, hp1⟩

theorem hslToRgb01_mem {h s l : ℚ} (hh0 : 0 ≤ h) (hh1 : h ≤ 1) (hs0 : 0 ≤ s) (hs1 : s ≤ 1)
    (hl0 : 0 ≤ l) (hl1 : l ≤ 1) :
    0 ≤ (hslToRgb01 h s l).1 ∧ (hslToRgb01 h s l).1 ≤ 1 ∧
    0 ≤ (hslToRgb01 h s l).2.1 ∧ (hslToRgb01 h s l).2.1 ≤ 1 ∧
    0 ≤ (hslToRgb01 h s l).2.2 ∧ (hslToRgb01 h s l).2.2 ≤ 1 := by
  unfold hslToRgb01
  dsimp only
  split
  · exact ⟨hl0, hl1, hl0, hl1, hl0, hl1⟩
  · have hq : 0 ≤ (if l < 1 / 2 then l * (1 + s) else l + s - l * s) ∧
        (if l < 1 / 2 then l * (1 + s) else l + s - l * s) ≤ 1 := by
      split
      · next hl => constructor <;> nlinarith
      · next hl =>
        push_neg at hl
        constructor <;> nlinarith
    set q := (if l < 1 / 2 then l * (1 + s) else l + s - l * s) with hqdef
    obtain ⟨hq0, hq1⟩ := hq
    have hp0 : 0 ≤ 2 * l - q := by
      rw [hqdef]
      split
      · next hl => nlinarith
      · next hl =>
        push_neg at hl
        nlinarith
    have hp1 : 2 * l - q ≤ 1 := by
      rw [hqdef]
      split
      · next hl => nlinarith
      · next hl =>
        push_neg at hl
        nlinarith
    have m1 := hue2rgb_mem hp0 hp1 hq0 hq1 (t := h + 1/3) (by linarith) (by linarith)
    have m2 := hue2rgb_mem hp0 hp1 hq0 hq1 (t := h) (by linarith) (by linarith)
    have m3 := hue2rgb_mem hp0 hp1 hq0 hq1 (t := h - 1/3) (by linarith) (by linarith)
    exact ⟨m1.1, m1.2, m2.1, m2.2, m3.1, m3.2⟩

theorem tinycolorFromHsl_mem (hsl : JsHsl) :
    0 ≤ (tinycolorFromHsl hsl).1 ∧ (tinycolorFromHsl hsl).1 ≤ 255 ∧
    0 ≤ (tinycolorFromHsl hsl).2.1 ∧ (tinycolorFromHsl hsl).2.1 ≤ 255 ∧
    0 ≤ (tinycolorFromHsl hsl).2.2 ∧ (tinycolorFromHsl hsl).2.2 ≤ 255 := by
  unfold tinycolorFromHsl
  dsimp only
  have hh := hueBound_mem hsl.h
  have hs := cvtPctBound_mem hsl.s
  have hl := cvtPctBound_mem hsl.l
  have hm := hslToRgb01_mem hh.1 hh.2 hs.1 hs.2 hl.1 hl.2
  refine ⟨?_, ?_, ?_, ?_, ?_, ?_⟩ <;> nlinarith [hm.1, hm.2.1, hm.2.2.1,
    hm.2.2.2.1, hm.2.2.2.2.1, hm.2.2.2.2.2]

theorem chan01_mem (q : ℚ) : 0 ≤ chan01 q ∧ chan01 q ≤ 1 := by
  unfold chan01
  dsimp only
  have h1 : (0 : ℚ) ≤ min 255 (max 0 q) := le_min (by norm_num) (le_max_left 0 q)
  have h2 : min 255 (max 0 q) ≤ 255 := min_le_left _ _
  split
  · norm_num
  · constructor
    · positivity
    · rw [div_le_one (by norm_num)]
      exact h2

theorem rgbToHsl01_sl_mem (R G B : ℚ) :
    0 ≤ (rgbToHsl01 R G B).s ∧ (rgbToHsl01 R G B).s ≤ 1 ∧
      0 ≤ (rgbToHsl01 R G B).l ∧ (rgbToHsl01 R G B).l ≤ 1 := by
  unfold rgbToHsl01
  dsimp only
  have hr := chan01_mem R
  have hg := chan01_mem G
  have hb := chan01_mem B
  set r := chan01 R
  set g := chan01 G
  set b := chan01 B
  have hmax0 : 0 ≤ max r (max g b) := le_trans hr.1 (le_max_left _ _)
  have hmax1 : max r (max g b) ≤ 1 := max_le hr.2 (max_le hg.2 hb.2)
  have hmin0 : 0 ≤ min r (min g b) := le_min hr.1 (le_min hg.1 hb.1)
  have hminmax : min r (min g b) ≤ max r (max g b) :=
    le_trans (min_le_left _ _) (le_max_left _ _)
  split
  · next heq =>
    refine ⟨le_refl 0, by norm_num, by positivity, ?_⟩
    simp only [JsHsl.l]
    linarith
  · next hne =>
    have hlt : min r (min g b) < max r (max g b) := lt_of_le_of_ne hminmax (fun e => hne e.symm)
    constructor
    · simp only [JsHsl.s]
      split
      · next hl =>
        have hd : (0 : ℚ) < 2 - max r (max g b) - min r (min g b) := by
          have : min r (min g b) < 1 := lt_of_lt_of_le hlt hmax1
          linarith
        exact div_nonneg (by linarith) (le_of_lt hd)
      · next hl =>
        have hd : (0 : ℚ) < max r (max g b) + min r (min g b) := by
          rcases lt_or_le 0 (max r (max g b)) with hp | hp
          · linarith
          · have : max r (max g b) = 0 := le_antisymm hp hmax0
            rw [this] at hlt
            linarith [hmin0]
        exact div_nonneg (by linarith) (le_of_lt hd)
    constructor
    · simp only [JsHsl.s]
      split
      · next hl =>
        have hd : (0 : ℚ) < 2 - max r (max g b) - min r (min g b) := by
          have : min r (min g b) < 1 := lt_of_lt_of_le hlt hmax1
          linarith
        rw [div_le_one hd]
        linarith
      · next hl =>
        have hd : (0 : ℚ) < max r (max g b) + min r (min g b) := by
          rcases lt_or_le 0 (max r (max g b)) with hp | hp
          · linarith
          · have : max r (max g b) = 0 := le_antisymm hp hmax0
            rw [this] at hlt
            linarith [hmin0]
        rw [div_le_one hd]
        linarith
    constructor
    · simp only [JsHsl.l]
      positivity
    · simp only [JsHsl.l]
      linarith

theorem toHsl_sl_mem (c : Rgba) :
    0 ≤ (toHsl c).s ∧ (toHsl c).s ≤ 1 ∧ 0 ≤ (toHsl c).l ∧ (toHsl c).l ≤ 1 := by
  unfold toHsl
  dsimp only
  exact rgbToHsl01_sl_mem c.r c.g c.b

/-! ## Shape of the converter's output -/

theorem grayCompute_shape {c : Rgba} (cfg : GrayConfig)
    (hr : 0 ≤ c.r) (hr2 : c.r ≤ 255) (hg : 0 ≤ c.g) (hg2 : c.g ≤ 255)
    (hb : 0 ≤ c.b) (hb2 : c.b ≤ 255) :
    ∃ n1 n2 n3 : ℕ, n1 ≤ 255 ∧ n2 ≤ 255 ∧ n3 ≤ 255 ∧
      grayCompute c cfg = ⟨'#' :: (toHex2 n1 ++ toHex2 n2 ++ toHex2 n3)⟩ := by
  unfold grayCompute
  dsimp only
  have toNat255 : ∀ z : ℤ, z ≤ 255 → z.toNat ≤ 255 := by
    intro z hz
    omega
  split
  · have hY := luminanceY_mem hr hr2 hg hg2 hb hb2
    have hle : (jsRound (luminanceY c)).toNat ≤ 255 := toNat255 _ (jsRound_le_255 hY.2)
    exact ⟨_, _, _, hle, hle, hle, rfl⟩
  · split
    · have hm := tinycolorFromHsl_mem (hslPathRecord c 100)
      refine ⟨_, _, _, toNat255 _ (jsRound_le_255 hm.2.1), toNat255 _ (jsRound_le_255 hm.2.2.2.1),
        toNat255 _ (jsRound_le_255 hm.2.2.2.2.2), rfl⟩
    · have hm := tinycolorFromHsl_mem (hslPathRecord c cfg.desaturationAmount)
      refine ⟨_, _, _, toNat255 _ (jsRound_le_255 hm.2.1), toNat255 _ (jsRound_le_255 hm.2.2.2.1),
        toNat255 _ (jsRound_le_255 hm.2.2.2.2.2), rfl⟩

theorem toGrayPure_shape {s : String} {c : Rgba} (cfg : GrayConfig)
    (h : tinycolorParse s = some c) :
    ∃ n1 n2 n3 : ℕ, n1 ≤ 255 ∧ n2 ≤ 255 ∧ n3 ≤ 255 ∧
      toGrayPure s cfg = ⟨'#' :: (toHex2 n1 ++ toHex2 n2 ++ toHex2 n3)⟩ := by
  have hb := tinycolorParse_bounds h
  have hs := grayCompute_shape cfg hb.1 hb.2.1 hb.2.2.1 hb.2.2.2.1 hb.2.2.2.2.1 hb.2.2.2.2.2.1
  unfold toGrayPure
  rw [h]
  exact hs

/-! ## Reparsing a produced hex string -/

theorem dropWhile_all_false {p : Char → Bool} {l : List Char}
    (h : ∀ c ∈ l, p c = false) : l.dropWhile p = l := by
  cases l with
  | nil => rfl
  | cons c rest => simp [List.dropWhile, h c (by simp)]

theorem trimList_id {l : List Char} (h : ∀ c ∈ l, jsSpace c = false) : trimList l = l := by
  unfold trimList
  rw [dropWhile_all_false h]
  rw [dropWhile_all_false (by intro c hc; exact h c (List.mem_reverse.mp hc))]
  exact List.reverse_reverse l

theorem map_toLower_id {l : List Char} (h : ∀ c ∈ l, Char.toLower c = c) :
    l.map Char.toLower = l := by
  rw [List.map_congr_left h]
  simp

/-- Characters produced when rendering a channel value: the `#` head and
hex digits; none is whitespace, all are fixed by lowercasing. -/
theorem toHex2_chars {n : ℕ} (h : n ≤ 255) :
    ∀ c ∈ toHex2 n, jsSpace c = false ∧ Char.toLower c = c ∧ c.toNat ≠ 35 := by
  rw [toHex2_eq h]
  intro c hc
  have f1 := hexChar_facts (n / 16) (by omega)
  have f2 := hexChar_facts (n % 16) (by omega)
  simp only [List.mem_cons, List.not_mem_nil, or_false] at hc
  rcases hc with rfl | rfl
  · exact ⟨f1.2.2.1, f1.2.1, f1.2.2.2⟩
  · exact ⟨f2.2.2.1, f2.2.1, f2.2.2.2⟩

theorem tinycolorParse_hexOut {n1 n2 n3 : ℕ} (h1 : n1 ≤ 255) (h2 : n2 ≤ 255) (h3 : n3 ≤ 255) :
    tinycolorParse ⟨'#' :: (toHex2 n1 ++ toHex2 n2 ++ toHex2 n3)⟩ =
      some ⟨(n1 : ℚ), (n2 : ℚ), (n3 : ℚ), 1⟩ := by
  have hall : ∀ c ∈ ('#' :: (toHex2 n1 ++ toHex2 n2 ++ toHex2 n3)),
      jsSpace c = false ∧ Char.toLower c = c := by
    intro c hc
    rcases List.mem_cons.mp hc with rfl | hc0
    · exact ⟨by decide, by decide⟩
    · rcases List.mem_append.mp hc0 with hc12 | hc3
      · rcases List.mem_append.mp hc12 with hc1 | hc2
        · exact ⟨(toHex2_chars h1 c hc1).1, (toHex2_chars h1 c hc1).2.1⟩
        · exact ⟨(toHex2_chars h2 c hc2).1, (toHex2_chars h2 c hc2).2.1⟩
      · exact ⟨(toHex2_chars h3 c hc3).1, (toHex2_chars h3 c hc3).2.1⟩
  have htrim : jsTrim ⟨'#' :: (toHex2 n1 ++ toHex2 n2 ++ toHex2 n3)⟩ =
      ⟨'#' :: (toHex2 n1 ++ toHex2 n2 ++ toHex2 n3)⟩ := by
    unfold jsTrim
    exact congrArg String.mk (trimList_id (fun c hc => (hall c hc).1))
  have hlower : jsToLower ⟨'#' :: (toHex2 n1 ++ toHex2 n2 ++ toHex2 n3)⟩ =
      ⟨'#' :: (toHex2 n1 ++ toHex2 n2 ++ toHex2 n3)⟩ := by
    unfold jsToLower
    exact congrArg String.mk (map_toLower_id (fun c hc => (hall c hc).2))
  unfold tinycolorParse
  dsimp only
  rw [htrim, hlower]
  rw [if_neg (by simp [jsStartsWith, List.isPrefixOf]), if_neg (by simp [jsStartsWith, List.isPrefixOf])]
  rw [toHex2_eq h1, toHex2_eq h2, toHex2_eq h3]
  simp only [List.head?, List.tail, List.cons_append, List.nil_append, if_pos]
  have e1 := (hexChar_facts (n1 / 16) (by omega)).1
  have e2 := (hexChar_facts (n1 % 16) (by omega)).1
  have e3 := (hexChar_facts (n2 / 16) (by omega)).1
  have e4 := (hexChar_facts (n2 % 16) (by omega)).1
  have e5 := (hexChar_facts (n3 / 16) (by omega)).1
  have e6 := (hexChar_facts (n3 % 16) (by omega)).1
  simp only [parseHex2, e1, e2, e3, e4, e5, e6]
  have hv1 : 16 * (n1 / 16) + n1 % 16 = n1 := by omega
  have hv2 : 16 * (n2 / 16) + n2 % 16 = n2 := by omega
  have hv3 : 16 * (n3 / 16) + n3 % 16 = n3 := by omega
  rw [hv1, hv2, hv3]

/-! ## Pass-through lemmas for the walker -/

theorem convAttrStep_getAttr_other {key key' : String} (hne : key' ≠ key)
    (cfg : GrayConfig) (attrs : List (String × String)) (cache : Cache) :
    getAttr key (convAttrStep key' cfg attrs cache).1 = getAttr key attrs := by
  unfold convAttrStep
  cases hv : getAttr key' attrs with
  | none => rfl
  | some v =>
    dsimp only
    split
    · dsimp only
      rw [getAttr_setAttr, if_neg hne]
    · rfl

theorem convAttrStep_skip {key v : String} {attrs : List (String × String)}
    (hv : getAttr key attrs = some v)
    (hskip : v = "none" ∨ jsStartsWith "url(" v = true)
    (cfg : GrayConfig) (cache : Cache) :
    (convAttrStep key cfg attrs cache).1 = attrs := by
  unfold convAttrStep
  rw [hv]
  dsimp only
  rcases hskip with h | h
  · subst h
    rw [if_neg (by simp)]
  · have hcond : ¬ (v ≠ "" ∧ v ≠ "none" ∧ jsStartsWith "url(" v = false) := by
      intro hcond
      have h3 := hcond.2.2
      rw [h] at h3
      exact Bool.noConfusion h3
    rw [if_neg hcond]

theorem convStopColorStep_getAttr_other {key name : String} (hne : key ≠ "stop-color")
    (cfg : GrayConfig) (attrs : List (String × String)) (cache : Cache) :
    getAttr key (convStopColorStep name cfg attrs cache).1 = getAttr key attrs := by
  unfold convStopColorStep
  by_cases hn : name = "stop"
  · simp only [if_pos hn]
    cases hv : getAttr "stop-color" attrs with
    | none => rfl
    | some v =>
      dsimp only
      split
      · dsimp only
        rw [getAttr_setAttr, if_neg (fun e => hne e.symm)]
      · rfl
  · simp [hn]

theorem convStopColorStep_none {name : String} {attrs : List (String × String)}
    (hv : getAttr "stop-color" attrs = some "none") (cfg : GrayConfig) (cache : Cache) :
    (convStopColorStep name cfg attrs cache).1 = attrs := by
  unfold convStopColorStep
  by_cases hn : name = "stop"
  · simp only [if_pos hn]
    rw [hv]
    dsimp only
    rw [if_neg (by simp)]
  · simp [hn]

/-! ## Exact description of partial desaturation -/

theorem desaturateHsl_eq {hsl : JsHsl} (hs : hsl.s ≤ 1) (amount : ℕ) :
    desaturateHsl amount hsl = ⟨hsl.h, max 0 (hsl.s - (amount : ℚ) / 100), hsl.l⟩ := by
  have hmax : clamp01 (hsl.s - (amount : ℚ) / 100) = max 0 (hsl.s - (amount : ℚ) / 100) := by
    unfold clamp01
    apply min_eq_right
    apply max_le (by norm_num)
    have ha : (0 : ℚ) ≤ (amount : ℚ) / 100 := by positivity
    linarith
  unfold desaturateHsl
  rw [hmax]

/-! ## Splitting lemmas for the style expander -/

theorem splitChar_not_mem {sep : Char} : ∀ {l : List Char}, sep ∉ l → splitChar sep l = [l] := by
  intro l
  induction l with
  | nil => intro _; rfl
  | cons c rest ih =>
    intro h
    have hc : ¬ c = sep := fun e => h (by simp [e])
    have hrest : sep ∉ rest := fun e => h (by simp [e])
    simp only [splitChar, if_neg hc, ih hrest]

theorem splitChar_append {sep : Char} : ∀ {l₁ : List Char} (l₂ : List Char), sep ∉ l₁ →
    splitChar sep (l₁ ++ sep :: l₂) = l₁ :: splitChar sep l₂ := by
  intro l₁
  induction l₁ with
  | nil =>
    intro l₂ _
    simp [splitChar]
  | cons c rest ih =>
    intro l₂ h
    have hc : ¬ c = sep := fun e => h (by simp [e])
    have hrest : sep ∉ rest := fun e => h (by simp [e])
    simp only [List.cons_append, splitChar, if_neg hc, List.append_eq]
    rw [ih l₂ hrest]

/-- Characters that interact with none of the expander's separators:
not whitespace, not `':'`, not `';'`. -/
def plainChar (c : Char) : Bool := !jsSpace c && !(c == ':') && !(c == ';')

theorem plainChar_not_colon {c : Char} (h : plainChar c = true) : ¬ c = ':' := by
  unfold plainChar at h
  simp only [Bool.and_eq_true, Bool.not_eq_true', beq_eq_false_iff_ne] at h
  exact h.1.2

theorem plainChar_not_semi {c : Char} (h : plainChar c = true) : ¬ c = ';' := by
  unfold plainChar at h
  simp only [Bool.and_eq_true, Bool.not_eq_true', beq_eq_false_iff_ne] at h
  exact h.2

theorem plainChar_not_space {c : Char} (h : plainChar c = true) : jsSpace c = false := by
  unfold plainChar at h
  simp only [Bool.and_eq_true, Bool.not_eq_true'] at h
  exact h.1.1

theorem string_mk_data (s : String) : String.mk s.data = s := by
  cases s
  rfl

/-- Evaluation of the style expander on a single-node tree whose `style`
attribute is one `fill` declaration, described through the split of its
character data at every `':'`. -/
theorem expandAttrs_style_fill {s v : String} {rest : List (List Char)}
    (hsplit : splitChar ':' s.data = "fill".data :: v.data :: rest)
    (hnospace : ∀ c ∈ s.data, jsSpace c = false)
    (hvtrim : trimList v.data = v.data)
    (hnosemi : ';' ∉ s.data) (hne : s ≠ "") :
    getAttr "fill" (expandAttrs [("style", s)]) = some v := by
  unfold expandAttrs
  have hget : getAttr "style" [("style", s)] = some s := by simp [getAttr]
  rw [hget]
  dsimp only
  rw [if_neg hne]
  have hdecls : jsSplit ';' s = [s] := by
    unfold jsSplit
    rw [splitChar_not_mem hnosemi]
    simp [string_mk_data]
  rw [hdecls]
  have htrim : jsTrim s = s := by
    unfold jsTrim
    rw [trimList_id hnospace, string_mk_data]
  simp only [List.map, htrim, List.foldl]
  unfold applyDecl
  rw [if_neg hne]
  have htv : jsTrim ⟨v.data⟩ = v := by
    unfold jsTrim
    rw [hvtrim]
  have hpieces : (jsSplit ':' s).map jsTrim =
      "fill" :: v :: (rest.map fun l => (⟨l⟩ : String)).map jsTrim := by
    unfold jsSplit
    rw [hsplit]
    simp only [List.map, htv]
    congr 1
  rw [hpieces]
  dsimp only
  rw [List.headD_cons, if_pos (show ("fill" : String) ∈ styleProps by simp [styleProps])]
  have hget1 : ("fill" :: v :: (rest.map fun l => (⟨l⟩ : String)).map jsTrim).getD 1 "undefined"
      = v := by
    simp [List.getD]
  rw [hget1]
  rw [getAttr_delAttr, if_neg (by decide), getAttr_setAttr, if_pos rfl]

/-! ## Claims -/

/-- C6: for every input string that the color parser rejects as invalid,
`toGray` returns the original string unchanged (and leaves the cache
untouched), under every method and strength and for every cache the
per-call conversion can produce (an empty or consistently filled cache):
it never fails and never drops or empties the attribute value. -/
theorem claim_C6 {s : String} (cfg : GrayConfig) {cache : Cache}
    (hc : CacheOK cfg cache) (h : tinycolorParse s = none) :
    toGray s cfg cache = (s, cache) := by
  unfold toGray
  cases hl : lookupCache (mkCacheKey s cfg) cache with
  | some v =>
    have hv := hc s v hl
    rw [toGrayPure, h] at hv
    rw [hv]
  | none => rw [h]

/-- Witness for C6 at the spec's own example `fill="inherit"` under both
methods, starting from the orchestrator's fresh empty cache. -/
theorem claim_C6_witness :
    CacheOK ⟨100, "hsl"⟩ [] ∧ tinycolorParse "inherit" = none ∧
      toGray "inherit" ⟨100, "hsl"⟩ [] = ("inherit", []) ∧
      toGray "inherit" ⟨40, "luminance"⟩ [] = ("inherit", []) :=
  ⟨cacheOK_nil _, by decide,
    claim_C6 ⟨100, "hsl"⟩ (cacheOK_nil _) (by decide),
    claim_C6 ⟨40, "luminance"⟩ (cacheOK_nil _) (by decide)⟩

/-- C7: expanding `style="fill:#ff0000;stroke:#00ff00;unknown-prop:foo"`
yields direct `fill` and `stroke` attributes with those values, creates no
`unknown-prop` attribute, and removes the `style` attribute. -/
theorem claim_C7 :
    getAttr "fill" (expandStyleAttributes
      (.mk "rect" [("style", "fill:#ff0000;stroke:#00ff00;unknown-prop:foo")] [])).attributes =
        some "#ff0000" ∧
    getAttr "stroke" (expandStyleAttributes
      (.mk "rect" [("style", "fill:#ff0000;stroke:#00ff00;unknown-prop:foo")] [])).attributes =
        some "#00ff00" ∧
    getAttr "unknown-prop" (expandStyleAttributes
      (.mk "rect" [("style", "fill:#ff0000;stroke:#00ff00;unknown-prop:foo")] [])).attributes =
        none ∧
    getAttr "style" (expandStyleAttributes
      (.mk "rect" [("style", "fill:#ff0000;stroke:#00ff00;unknown-prop:foo")] [])).attributes =
        none := by decide

/-- C8 counterexample: a recognised property whose value itself contains a
`':'` is NOT preserved whole — for `style="fill:a:b"` the expander
produces `fill="a"`, not `fill="a:b"`: the declaration is split at every
colon and only the piece between the first and second colon is kept. -/
theorem claim_C8_counterexample :
    getAttr "fill"
        (expandStyleAttributes (.mk "rect" [("style", "fill:a:b")] [])).attributes =
      some "a" ∧ some "a" ≠ some "a:b" := by decide

/-- C8 (amended): the expander splits each declaration at EVERY `':'` and
keeps only the first two pieces, so the direct attribute receives the
trimmed text between the declaration's first and second colons: a value
without a `':'` of its own is preserved in full, while everything from a
value's first `':'` on is dropped. -/
theorem claim_C8 (v w : String) (hv : v.data.all plainChar = true)
    (hw : w.data.all plainChar = true) :
    getAttr "fill" (expandStyleAttributes
      (.mk "path" [("style", "fill:" ++ v)] [])).attributes = some v ∧
    getAttr "fill" (expandStyleAttributes
      (.mk "path" [("style", "fill:" ++ v ++ ":" ++ w)] [])).attributes = some v := by
  have hvplain := List.all_eq_true.mp hv
  have hwplain := List.all_eq_true.mp hw
  have hvcolon : ':' ∉ v.data := fun hm => plainChar_not_colon (hvplain _ hm) rfl
  have hwcolon : ':' ∉ w.data := fun hm => plainChar_not_colon (hwplain _ hm) rfl
  have hvtrim : trimList v.data = v.data :=
    trimList_id fun c hc => plainChar_not_space (hvplain c hc)
  constructor
  · have hdata : ("fill:" ++ v).data = "fill".data ++ ':' :: v.data := by
      rw [String.data_append]
      rfl
    have hne : ("fill:" ++ v) ≠ "" := by
      intro e
      have h0 := hdata
      rw [e] at h0
      exact absurd h0 (by simp)
    have hsplit : splitChar ':' ("fill:" ++ v).data = "fill".data :: v.data :: [] := by
      rw [hdata, splitChar_append v.data (by decide), splitChar_not_mem hvcolon]
    have hnospace : ∀ c ∈ ("fill:" ++ v).data, jsSpace c = false := by
      intro c hc
      rw [hdata] at hc
      rcases List.mem_append.mp hc with h1 | h2
      · exact (by decide : ∀ x ∈ ("fill" : String).data, jsSpace x = false) c h1
      · rcases List.mem_cons.mp h2 with rfl | h3
        · decide
        · exact plainChar_not_space (hvplain c h3)
    have hnosemi : ';' ∉ ("fill:" ++ v).data := by
      intro hm
      rw [hdata] at hm
      rcases List.mem_append.mp hm with h1 | h2
      · exact absurd h1 (by decide)
      · rcases List.mem_cons.mp h2 with h3 | h3
        · exact absurd h3 (by decide)
        · exact plainChar_not_semi (hvplain _ h3) rfl
    simp only [expandStyleAttributes, SvgNode.attributes]
    exact expandAttrs_style_fill hsplit hnospace hvtrim hnosemi hne
  · have hdata : ("fill:" ++ v ++ ":" ++ w).data =
        "fill".data ++ ':' :: (v.data ++ ':' :: w.data) := by
      simp only [String.data_append]
      simp
    have hne : ("fill:" ++ v ++ ":" ++ w) ≠ "" := by
      intro e
      have h0 := hdata
      rw [e] at h0
      exact absurd h0 (by simp)
    have hsplit : splitChar ':' ("fill:" ++ v ++ ":" ++ w).data =
        "fill".data :: v.data :: splitChar ':' w.data := by
      rw [hdata, splitChar_append _ (by decide), splitChar_append _ hvcolon]
    have hnospace : ∀ c ∈ ("fill:" ++ v ++ ":" ++ w).data, jsSpace c = false := by
      intro c hc
      rw [hdata] at hc
      rcases List.mem_append.mp hc with h1 | h2
      · exact (by decide : ∀ x ∈ ("fill" : String).data, jsSpace x = false) c h1
      · rcases List.mem_cons.mp h2 with rfl | h3
        · decide
        · rcases List.mem_append.mp h3 with h4 | h5
          · exact plainChar_not_space (hvplain c h4)
          · rcases List.mem_cons.mp h5 with rfl | h6
            · decide
            · exact plainChar_not_space (hwplain c h6)
    have hnosemi : ';' ∉ ("fill:" ++ v ++ ":" ++ w).data := by
      intro hm
      rw [hdata] at hm
      rcases List.mem_append.mp hm with h1 | h2
      · exact absurd h1 (by decide)
      · rcases List.mem_cons.mp h2 with h3 | h3
        · exact absurd h3 (by decide)
        · rcases List.mem_append.mp h3 with h4 | h5
          · exact plainChar_not_semi (hvplain _ h4) rfl
          · rcases List.mem_cons.mp h5 with h6 | h6
            · exact absurd h6 (by decide)
            · exact plainChar_not_semi (hwplain _ h6) rfl
    simp only [expandStyleAttributes, SvgNode.attributes]
    exact expandAttrs_style_fill hsplit hnospace hvtrim hnosemi hne

/-- Witness for C8 at `v = "a"`, `w = "b"`: `style="fill:a"` expands to
`fill="a"`, and `style="fill:a:b"` also expands to `fill="a"`. -/
theorem claim_C8_witness :
    ("a" : String).data.all plainChar = true ∧ ("b" : String).data.all plainChar = true ∧
    (getAttr "fill" (expandStyleAttributes
      (.mk "path" [("style", "fill:" ++ "a")] [])).attributes = some "a" ∧
    getAttr "fill" (expandStyleAttributes
      (.mk "path" [("style", "fill:" ++ "a" ++ ":" ++ "b")] [])).attributes = some "a") :=
  ⟨by decide, by decide, claim_C8 "a" "b" (by decide) (by decide)⟩

/-- C9: the conversion with the per-call memoization cache (started empty
by the orchestrator) produces exactly the same output tree as a variant
that never consults or fills the cache. -/
theorem claim_C9 (t : SvgNode) (cfg : GrayConfig) :
    grayscaleTree t cfg = grayscaleTreePure t cfg := by
  unfold grayscaleTree grayscaleTreePure
  exact (traverse_cache_transparent cfg (expandStyleAttributes t) [] (cacheOK_nil cfg)).1

/-- C1 counterexample: the input `#ff000080` parses with alpha `128/255`,
but `toGray` renders an opaque six-digit hex color under both methods:
the output reparses with alpha `1`, not `128/255` — alpha is NOT
preserved. -/
theorem claim_C1_counterexample :
    tinycolorParse "#ff000080" = some ⟨255, 0, 0, 128 / 255⟩ ∧
    (128 / 255 : ℚ) ≠ 1 ∧
    (toGray "#ff000080" ⟨100, "luminance"⟩ []).1 = "#4c4c4c" ∧
    tinycolorParse "#4c4c4c" = some ⟨76, 76, 76, 1⟩ ∧
    (toGray "#ff000080" ⟨100, "hsl"⟩ []).1 = "#808080" ∧
    tinycolorParse "#808080" = some ⟨128, 128, 128, 1⟩ := by decide

/-- C1 (amended): for every color value string the parser accepts, under
both methods and every strength, `toGray` returns a color whose alpha
channel is `1.0` — the input's alpha channel is discarded by the opaque
six-digit hex output, not preserved. -/
theorem claim_C1 {s : String} {c : Rgba} (cfg : GrayConfig)
    (h : tinycolorParse s = some c) :
    ∃ out : Rgba, tinycolorParse ((toGray s cfg []).1) = some out ∧ out.a = 1 := by
  rw [toGray_fst (cacheOK_nil cfg) s]
  obtain ⟨n1, n2, n3, hn1, hn2, hn3, heq⟩ := toGrayPure_shape cfg h
  rw [heq, tinycolorParse_hexOut hn1 hn2 hn3]
  exact ⟨_, rfl, rfl⟩

/-- Witness for C1 (amended) at the translucent red `#ff000080` under the
luminance method. -/
theorem claim_C1_witness :
    ∃ out : Rgba,
      tinycolorParse ((toGray "#ff000080" ⟨100, "luminance"⟩ []).1) = some out ∧ out.a = 1 :=
  claim_C1 ⟨100, "luminance"⟩ (h := by decide) (c := ⟨255, 0, 0, 128 / 255⟩)

/-- C2: the luminance method maps pure red to gray level
`round(0.299·255) = 76` (`#4c4c4c`) and pure yellow to `226` (`#e2e2e2`)
— strictly different — while the HSL method at strength 100 maps both to
the identical `#808080`. -/
theorem claim_C2 :
    tinycolorParse "rgb(255,0,0)" = some ⟨255, 0, 0, 1⟩ ∧
    tinycolorParse "rgb(255,255,0)" = some ⟨255, 255, 0, 1⟩ ∧
    jsRound (luminanceY ⟨255, 0, 0, 1⟩) = 76 ∧
    jsRound (luminanceY ⟨255, 255, 0, 1⟩) = 226 ∧
    (76 : ℤ) ≠ 226 ∧
    (toGray "rgb(255,0,0)" ⟨100, "luminance"⟩ []).1 = "#4c4c4c" ∧
    (toGray "rgb(255,255,0)" ⟨100, "luminance"⟩ []).1 = "#e2e2e2" ∧
    ("#4c4c4c" : String) ≠ "#e2e2e2" ∧
    (toGray "rgb(255,0,0)" ⟨100, "hsl"⟩ []).1 = "#808080" ∧
    (toGray "rgb(255,255,0)" ⟨100, "hsl"⟩ []).1 = "#808080" := by decide

/-- C3 counterexample: a document whose node carries a `style` attribute
loses it (the expander deletes `style` after expansion), so the output
does NOT retain every non-color attribute: `style` itself is a non-color
attribute (it is none of fill/stroke/color/stop-color) and it is gone. -/
theorem claim_C3_counterexample :
    attrShape keepNonColor
        (grayscaleTree (.mk "rect" [("style", "opacity:0.5")] []) ⟨100, "hsl"⟩) ≠
      attrShape keepNonColor (.mk "rect" [("style", "opacity:0.5")] []) :=
  fun h => absurd (congrArg LTree.label h) (by decide)

/-- C3 (amended): for every input tree and configuration the converted
tree has the same node count, the same tag names in the same tree
positions, and the same non-color attributes with unchanged values —
where non-color now excludes `style` as well, since a non-empty `style`
attribute is consumed (deleted) by the style expansion pass. -/
theorem claim_C3 (t : SvgNode) (cfg : GrayConfig) :
    nodeCount (grayscaleTree t cfg) = nodeCount t ∧
    nameShape (grayscaleTree t cfg) = nameShape t ∧
    attrShape keepNonColorStyle (grayscaleTree t cfg) = attrShape keepNonColorStyle t := by
  have heq : grayscaleTree t cfg = traverseAndGrayscalePure (expandStyleAttributes t) cfg :=
    (traverse_cache_transparent cfg (expandStyleAttributes t) [] (cacheOK_nil cfg)).1
  have hexp := expand_projEq keepNonColorStyle (by decide) (by decide) t
  have htrav := traversePure_projEq cfg keepNonColorStyle (by decide) (expandStyleAttributes t)
  refine ⟨?_, ?_, ?_⟩
  · rw [heq, htrav.1, hexp.1]
  · rw [heq, htrav.2.1, hexp.2.1]
  · rw [heq, htrav.2.2, hexp.2.2]

/-- C4 counterexample: for `#bf4040` (saturation `127/255`) at strength
50, the HSL path's resulting saturation is `0` — the color snaps to the
fully gray `#808080` — whereas the claimed proportional formula
`s·(1 − strength/100) = 127/510` is nonzero: the code subtracts
`strength/100` from the saturation instead of scaling it. -/
theorem claim_C4_counterexample :
    tinycolorParse "#bf4040" = some ⟨191, 64, 64, 1⟩ ∧
    (toHsl ⟨191, 64, 64, 1⟩).s = 127 / 255 ∧
    (hslPathRecord ⟨191, 64, 64, 1⟩ 50).s = 0 ∧
    (127 / 255 : ℚ) * (1 - 50 / 100) ≠ 0 ∧
    (toGray "#bf4040" ⟨50, "hsl"⟩ []).1 = "#808080" ∧
    tinycolorParse "#808080" = some ⟨128, 128, 128, 1⟩ ∧
    (toHsl ⟨128, 128, 128, 1⟩).s = 0 := by decide

/-- C4 (amended): for every valid color and every strength below 100, the
HSL-method path converts through the record whose saturation is
`max 0 (s − strength/100)` — a subtraction of `strength` percentage
points clamped at zero (which CAN snap to zero), not a proportional
scaling — while hue and lightness are held constant. -/
theorem claim_C4 {s : String} {c : Rgba} {amount : ℕ} (h : tinycolorParse s = some c)
    (hlt : amount < 100) :
    hslPathRecord c amount =
      ⟨(toHsl c).h, max 0 ((toHsl c).s - (amount : ℚ) / 100), (toHsl c).l⟩ ∧
    toGrayPure s ⟨amount, "hsl"⟩ =
      rgbChansToHex (tinycolorFromHsl (hslPathRecord c amount)).1
        (tinycolorFromHsl (hslPathRecord c amount)).2.1
        (tinycolorFromHsl (hslPathRecord c amount)).2.2 := by
  constructor
  · unfold hslPathRecord
    exact desaturateHsl_eq (toHsl_sl_mem c).2.1 amount
  · unfold toGrayPure
    rw [h]
    unfold grayCompute
    dsimp only
    rw [if_neg (show ¬ ("hsl" : String) = "luminance" by decide),
      if_neg (show ¬ amount = 100 by omega)]

/-- Witness for C4 (amended) at pure red and strength 40: saturation
drops from 1 to `3/5 = max 0 (1 − 40/100)`, lightness stays `1/2`. -/
theorem claim_C4_witness :
    (40 : ℕ) < 100 ∧
    (hslPathRecord ⟨255, 0, 0, 1⟩ 40 =
        ⟨(toHsl ⟨255, 0, 0, 1⟩).h, max 0 ((toHsl ⟨255, 0, 0, 1⟩).s - (40 : ℚ) / 100),
          (toHsl ⟨255, 0, 0, 1⟩).l⟩ ∧
      toGrayPure "#ff0000" ⟨40, "hsl"⟩ =
        rgbChansToHex (tinycolorFromHsl (hslPathRecord ⟨255, 0, 0, 1⟩ 40)).1
          (tinycolorFromHsl (hslPathRecord ⟨255, 0, 0, 1⟩ 40)).2.1
          (tinycolorFromHsl (hslPathRecord ⟨255, 0, 0, 1⟩ 40)).2.2) :=
  ⟨by norm_num, claim_C4 (by decide) (by norm_num)⟩

/-- C5: for every node, a `fill`, `stroke` or `color` attribute whose
value is exactly `"none"` or begins with `url(` is left unchanged by the
tree-rewrite walker, and a `stop-color` value of `"none"` is likewise left
unchanged. -/
theorem claim_C5 (name : String) (attrs : List (String × String)) (children : List SvgNode)
    (cfg : GrayConfig) (cache : Cache) :
    (∀ key ∈ (["fill", "stroke", "color"] : List String), ∀ v : String,
      getAttr key attrs = some v → (v = "none" ∨ jsStartsWith "url(" v = true) →
      getAttr key (traverseAndGrayscale (.mk name attrs children) cfg cache).1.attributes =
        some v) ∧
    (getAttr "stop-color" attrs = some "none" →
      getAttr "stop-color"
        (traverseAndGrayscale (.mk name attrs children) cfg cache).1.attributes =
          some "none") := by
  constructor
  · intro key hkey v hv hskip
    simp only [traverseAndGrayscale, SvgNode.attributes]
    simp only [List.mem_cons, List.not_mem_nil, or_false] at hkey
    rcases hkey with rfl | rfl | rfl
    · rw [convStopColorStep_getAttr_other (by decide),
        convAttrStep_getAttr_other (show ("color" : String) ≠ "fill" by decide),
        convAttrStep_getAttr_other (show ("stroke" : String) ≠ "fill" by decide),
        convAttrStep_skip hv hskip]
      exact hv
    · rw [convStopColorStep_getAttr_other (by decide),
        convAttrStep_getAttr_other (show ("color" : String) ≠ "stroke" by decide)]
      have hv' : getAttr "stroke" (convAttrStep "fill" cfg attrs cache).1 = some v := by
        rw [convAttrStep_getAttr_other (show ("fill" : String) ≠ "stroke" by decide)]
        exact hv
      rw [convAttrStep_skip hv' hskip]
      exact hv'
    · rw [convStopColorStep_getAttr_other (by decide)]
      have hv' : getAttr "color"
          (convAttrStep "stroke" cfg (convAttrStep "fill" cfg attrs cache).1
            (convAttrStep "fill" cfg attrs cache).2).1 = some v := by
        rw [convAttrStep_getAttr_other (show ("stroke" : String) ≠ "color" by decide),
          convAttrStep_getAttr_other (show ("fill" : String) ≠ "color" by decide)]
        exact hv
      rw [convAttrStep_skip hv' hskip]
      exact hv'
  · intro hv
    simp only [traverseAndGrayscale, SvgNode.attributes]
    have hv' : getAttr "stop-color"
        (convAttrStep "color" cfg
          (convAttrStep "stroke" cfg (convAttrStep "fill" cfg attrs cache).1
            (convAttrStep "fill" cfg attrs cache).2).1
          (convAttrStep "stroke" cfg (convAttrStep "fill" cfg attrs cache).1
            (convAttrStep "fill" cfg attrs cache).2).2).1 = some "none" := by
      rw [convAttrStep_getAttr_other (show ("color" : String) ≠ "stop-color" by decide),
        convAttrStep_getAttr_other (show ("stroke" : String) ≠ "stop-color" by decide),
        convAttrStep_getAttr_other (show ("fill" : String) ≠ "stop-color" by decide)]
      exact hv
    rw [convStopColorStep_none hv']
    exact hv'

/-- Witness for C5 on a `stop` node carrying `fill="none"`,
`stroke="url(#grad)"` and `stop-color="none"`. -/
theorem claim_C5_witness :
    getAttr "fill" (traverseAndGrayscale
      (.mk "stop" [("fill", "none"), ("stroke", "url(#grad)"), ("stop-color", "none")] [])
      ⟨100, "hsl"⟩ []).1.attributes = some "none" ∧
    getAttr "stroke" (traverseAndGrayscale
      (.mk "stop" [("fill", "none"), ("stroke", "url(#grad)"), ("stop-color", "none")] [])
      ⟨100, "hsl"⟩ []).1.attributes = some "url(#grad)" ∧
    getAttr "stop-color" (traverseAndGrayscale
      (.mk "stop" [("fill", "none"), ("stroke", "url(#grad)"), ("stop-color", "none")] [])
      ⟨100, "hsl"⟩ []).1.attributes = some "none" :=
  ⟨(claim_C5 "stop" [("fill", "none"), ("stroke", "url(#grad)"), ("stop-color", "none")] []
      ⟨100, "hsl"⟩ []).1 "fill" (by decide) "none" (by decide) (Or.inl rfl),
   (claim_C5 "stop" [("fill", "none"), ("stroke", "url(#grad)"), ("stop-color", "none")] []
      ⟨100, "hsl"⟩ []).1 "stroke" (by decide) "url(#grad)" (by decide) (Or.inr (by decide)),
   (claim_C5 "stop" [("fill", "none"), ("stroke", "url(#grad)"), ("stop-color", "none")] []
      ⟨100, "hsl"⟩ []).2 (by decide)⟩

/-- C10: for every color value string the parser accepts, under both
methods and every strength, `toGray` returns exactly `'#'` followed by six
hexadecimal digits — never an eight-digit form carrying alpha. -/
theorem claim_C10 {s : String} {c : Rgba} (cfg : GrayConfig)
    (h : tinycolorParse s = some c) :
    ∃ d1 d2 d3 d4 d5 d6 : Char,
      (toGray s cfg []).1 = ⟨['#', d1, d2, d3, d4, d5, d6]⟩ ∧
      ∀ d ∈ [d1, d2, d3, d4, d5, d6], (hexVal d).isSome = true := by
  rw [toGray_fst (cacheOK_nil cfg) s]
  obtain ⟨n1, n2, n3, hn1, hn2, hn3, heq⟩ := toGrayPure_shape cfg h
  refine ⟨hexChar (n1 / 16), hexChar (n1 % 16), hexChar (n2 / 16), hexChar (n2 % 16),
    hexChar (n3 / 16), hexChar (n3 % 16), ?_, ?_⟩
  · rw [heq, toHex2_eq hn1, toHex2_eq hn2, toHex2_eq hn3]
    rfl
  · intro d hd
    simp only [List.mem_cons, List.not_mem_nil, or_false] at hd
    rcases hd with rfl | rfl | rfl | rfl | rfl | rfl
    · rw [(hexChar_facts (n1 / 16) (by omega)).1]; rfl
    · rw [(hexChar_facts (n1 % 16) (by omega)).1]; rfl
    · rw [(hexChar_facts (n2 / 16) (by omega)).1]; rfl
    · rw [(hexChar_facts (n2 % 16) (by omega)).1]; rfl
    · rw [(hexChar_facts (n3 / 16) (by omega)).1]; rfl
    · rw [(hexChar_facts (n3 % 16) (by omega)).1]; rfl

/-- Witness for C10 at `rgb(255,0,0)` under the HSL method at strength
35. -/
theorem claim_C10_witness :
    ∃ d1 d2 d3 d4 d5 d6 : Char,
      (toGray "rgb(255,0,0)" ⟨35, "hsl"⟩ []).1 = ⟨['#', d1, d2, d3, d4, d5, d6]⟩ ∧
      ∀ d ∈ [d1, d2, d3, d4, d5, d6], (hexVal d).isSome = true :=
  claim_C10 ⟨35, "hsl"⟩ (c := ⟨255, 0, 0, 1⟩) (by decide)

end GrayscaleSvg
